import Mathlib

/-!
# Verification of the multitool JSON-RPC stdio client

A shallow embedding, in Lean 4, of the core of `samchristywork/multitool`
(`src/main.rs`, `src/request.rs`, `src/display.rs`): the JSON value model
(`serde_json::Value`), its compact serializer (`Value::to_string`) and parser
(`serde_json::from_str`), the wire framing (`generate_rpc_request` /
`consume_json_rpc_message`), the request builders (`create_request` and the
per-method builders), the request counter (`Count`, an `i32`), the interactive
loop (`handle_stdin`), and the response rendering (`display_json_rpc_message`,
`handle_stdout`).

Modelling conventions:
* The wire is modelled as `List Char`; byte counts (Rust `String::len`,
  `read_exact`) are modelled by UTF-8 size accounting (`Char.utf8Size`),
  matching Rust's byte-level view wherever frame boundaries align with
  character boundaries — which they always do for frames this program
  produces.
* Rust `usize` quantities (content lengths) are modelled as `Nat`: the real
  program can only materialise strings that fit in memory, so the `usize`
  bound is never the binding constraint on these paths.
* The request counter is an `i32` incremented with `+= 1`; in a release build
  that wraps on overflow, which is modelled explicitly by `wrapI32`.
* `serde_json`'s object representation is a map; here an object is a list of
  key/value pairs in insertion order.  No claim observes the relative order of
  keys inside one envelope, so this difference is unobservable below.
-/

set_option maxHeartbeats 1000000
set_option maxRecDepth 100000

/-! ## The JSON value model (`serde_json::Value`) -/

mutual
inductive Json where
  | null : Json
  | bool (b : Bool) : Json
  | num (n : Int) : Json
  | str (s : String) : Json
  | arr (xs : JsonArr) : Json
  | obj (kvs : JsonObj) : Json
  deriving DecidableEq

inductive JsonArr where
  | nil : JsonArr
  | cons (hd : Json) (tl : JsonArr) : JsonArr
  deriving DecidableEq

inductive JsonObj where
  | nil : JsonObj
  | cons (key : String) (val : Json) (tl : JsonObj) : JsonObj
  deriving DecidableEq
end

/-- `Value::get(key)` on an object: first binding of `key`, `none` otherwise. -/
def Json.get (v : Json) (key : String) : Option Json :=
  match v with
  | .obj kvs => go kvs
  | _ => none
where go : JsonObj → Option Json
  | .nil => none
  | .cons k val tl => if k = key then some val else go tl

/-! ## Decimal digits (`format!` / `Display for usize`)

`natDigits n` is the decimal representation of `n`, most significant digit
first.  The fuel argument makes the definition structurally recursive (hence
kernel-computable); `n + 1` units of fuel always suffice since `n / 10 < n`
for `n ≥ 10`. -/

def natDigitsAux : Nat → Nat → List Char → List Char
  | 0, _, acc => acc
  | f + 1, n, acc =>
    if n < 10 then Nat.digitChar n :: acc
    else natDigitsAux f (n / 10) (Nat.digitChar (n % 10) :: acc)

def natDigits (n : Nat) : List Char := natDigitsAux (n + 1) n []

/-- Decimal representation of an `i64`/`i32` value (`Display for i64`). -/
def intChars (n : Int) : List Char :=
  if n < 0 then '-' :: natDigits n.natAbs else natDigits n.natAbs

/-! ## The compact serializer (`serde_json::to_string`) -/

/-- One lowercase hex digit (as used by `serde_json` for `\u00XY` escapes). -/
def hexDigitChar (n : Nat) : Char :=
  if n < 10 then Nat.digitChar n
  else if n = 10 then 'a'
  else if n = 11 then 'b'
  else if n = 12 then 'c'
  else if n = 13 then 'd'
  else if n = 14 then 'e'
  else 'f'

/-- `serde_json`'s escaping of one character inside a JSON string literal. -/
def escapeChar (c : Char) : List Char :=
  if c = '"' then ['\\', '"']
  else if c = '\\' then ['\\', '\\']
  else if c = '\x08' then ['\\', 'b']
  else if c = '\t' then ['\\', 't']
  else if c = '\n' then ['\\', 'n']
  else if c = '\x0c' then ['\\', 'f']
  else if c = '\r' then ['\\', 'r']
  else if c.toNat < 0x20 then
    ['\\', 'u', '0', '0', hexDigitChar (c.toNat / 16), hexDigitChar (c.toNat % 16)]
  else [c]

def escapeList : List Char → List Char
  | [] => []
  | c :: cs => escapeChar c ++ escapeList cs

/-- A serialized JSON string literal: `"` + escaped content + `"`. -/
def serStr (s : String) : List Char := '"' :: escapeList s.data ++ ['"']

mutual
/-- `serde_json::to_string`: the minimal (whitespace-free) serialization. -/
def serJson : Json → List Char
  | .null => 'n' :: ['u', 'l', 'l']
  | .bool true => 't' :: ['r', 'u', 'e']
  | .bool false => 'f' :: ['a', 'l', 's', 'e']
  | .num n => intChars n
  | .str s => serStr s
  | .arr xs => '[' :: serArr xs ++ [']']
  | .obj kvs => '\x7b' :: serObj kvs ++ ['\x7d']

/-- Comma-separated serialization of array elements. -/
def serArr : JsonArr → List Char
  | .nil => []
  | .cons x .nil => serJson x
  | .cons x (.cons y tl) => serJson x ++ ',' :: serArr (.cons y tl)

/-- Comma-separated serialization of `"key":value` members. -/
def serObj : JsonObj → List Char
  | .nil => []
  | .cons k v .nil => serStr k ++ ':' :: serJson v
  | .cons k v (.cons k2 v2 tl) =>
    serStr k ++ ':' :: serJson v ++ ',' :: serObj (.cons k2 v2 tl)
end

/-- UTF-8 byte length of a character sequence (Rust `String::len`). -/
def utf8Len : List Char → Nat
  | [] => 0
  | c :: cs => c.utf8Size + utf8Len cs

-- Sanity checks on the serializer.
example : serJson (.arr (.cons .null (.cons (.bool true) .nil))) =
    ('[' :: "null,true".data ++ [']']) := by decide
example : serJson (.obj (.cons "a" (.num (-12)) .nil)) =
    ('\x7b' :: "\"a\":-12".data ++ ['\x7d']) := by decide
example : serJson (.str "a\"b\\c\x01") =
    "\"a\\\"b\\\\c\\u0001\"".data := by decide
example : utf8Len (serJson (.str "é")) = 4 := by decide

/-! ## The JSON parser (`serde_json::from_str`)

A recursive-descent parser over `List Char`.  Fuel makes it structurally
recursive; any fuel larger than the input length suffices.  On the image of
the serializer it is an exact inverse (proved below); away from that image it
is a reasonable model of `serde_json`'s grammar (numbers are restricted to
integers, which are the only numbers this program ever builds). -/

def isWsChar (c : Char) : Bool := c = ' ' || c = '\t' || c = '\n' || c = '\r'

def skipWs : List Char → List Char
  | [] => []
  | c :: cs => if isWsChar c then skipWs cs else c :: cs

def hexVal (c : Char) : Option Nat :=
  if '0' ≤ c ∧ c ≤ '9' then some (c.toNat - '0'.toNat)
  else if 'a' ≤ c ∧ c ≤ 'f' then some (c.toNat - 'a'.toNat + 10)
  else if 'A' ≤ c ∧ c ≤ 'F' then some (c.toNat - 'A'.toNat + 10)
  else none

/-- Expect the literal `lit` as a prefix of the input; return the remainder. -/
def parseLit : List Char → List Char → Option (List Char)
  | [], s => some s
  | _ :: _, [] => none
  | c :: cs, d :: ds => if c = d then parseLit cs ds else none

/-- Decode a single-character escape (`\"`, `\\`, `\/`, `\b`, `\f`, `\n`, `\r`, `\t`). -/
def decodeEsc (e : Char) : Option Char :=
  if e = '"' then some '"'
  else if e = '\\' then some '\\'
  else if e = '/' then some '/'
  else if e = 'b' then some '\x08'
  else if e = 'f' then some '\x0c'
  else if e = 'n' then some '\n'
  else if e = 'r' then some '\r'
  else if e = 't' then some '\t'
  else none

/-- Parse the body of a JSON string literal (after the opening quote), up to
and including the closing quote; returns the unescaped content. -/
def parseStrBody : List Char → Option (List Char × List Char)
  | [] => none
  | c :: cs =>
    if c = '"' then some ([], cs)
    else if c = '\\' then
      match cs with
      | [] => none
      | e :: cs2 =>
        if e = 'u' then
          match cs2 with
          | h1 :: h2 :: h3 :: h4 :: cs6 =>
            match hexVal h1, hexVal h2, hexVal h3, hexVal h4 with
            | some a, some b, some x, some y =>
              let n := ((a * 16 + b) * 16 + x) * 16 + y
              if h : n.isValidChar then
                match parseStrBody cs6 with
                | some (tl, r) => some (Char.ofNatAux n h :: tl, r)
                | none => none
              else none
            | _, _, _, _ => none
          | _ => none
        else
          match decodeEsc e with
          | some d =>
            match parseStrBody cs2 with
            | some (tl, r) => some (d :: tl, r)
            | none => none
          | none => none
    else
      match parseStrBody cs with
      | some (tl, r) => some (c :: tl, r)
      | none => none

/-- Consume a maximal run of decimal digits, folding them onto `acc`. -/
def digitsAux : Nat → List Char → Nat × List Char
  | acc, [] => (acc, [])
  | acc, c :: cs =>
    if c.isDigit then digitsAux (acc * 10 + (c.toNat - '0'.toNat)) cs
    else (acc, c :: cs)

mutual
/-- Parse one JSON value, returning it with the unconsumed remainder. -/
def parseJ : Nat → List Char → Option (Json × List Char)
  | 0, _ => none
  | f + 1, s =>
    match skipWs s with
    | [] => none
    | c :: cs =>
      if c = 'n' then
        match parseLit ['u', 'l', 'l'] cs with
        | some r => some (.null, r)
        | none => none
      else if c = 't' then
        match parseLit ['r', 'u', 'e'] cs with
        | some r => some (.bool true, r)
        | none => none
      else if c = 'f' then
        match parseLit ['a', 'l', 's', 'e'] cs with
        | some r => some (.bool false, r)
        | none => none
      else if c = '"' then
        match parseStrBody cs with
        | some (content, r) => some (.str (String.mk content), r)
        | none => none
      else if c = '-' then
        match cs with
        | d :: ds =>
          if d.isDigit then
            let p := digitsAux (d.toNat - '0'.toNat) ds
            some (.num (-(p.1 : Int)), p.2)
          else none
        | [] => none
      else if c.isDigit then
        let p := digitsAux (c.toNat - '0'.toNat) cs
        some (.num (p.1 : Int), p.2)
      else if c = '[' then
        match parseArrElems f cs with
        | some (xs, r) => some (.arr xs, r)
        | none => none
      else if c = '\x7b' then
        match parseObjMembers f cs with
        | some (kvs, r) => some (.obj kvs, r)
        | none => none
      else none

/-- Parse array elements after `[`, up to and including the closing `]`. -/
def parseArrElems : Nat → List Char → Option (JsonArr × List Char)
  | 0, _ => none
  | f + 1, s =>
    let s1 := skipWs s
    if s1.head? = some ']' then some (.nil, s1.tail)
    else
      match parseJ f s1 with
      | none => none
      | some (v, r) =>
        let r1 := skipWs r
        if r1.head? = some ',' then
          match parseArrElems f r1.tail with
          | some (tl, r3) => some (.cons v tl, r3)
          | none => none
        else if r1.head? = some ']' then some (.cons v .nil, r1.tail)
        else none

/-- Parse object members after an opening brace, up to and including the
closing brace. -/
def parseObjMembers : Nat → List Char → Option (JsonObj × List Char)
  | 0, _ => none
  | f + 1, s =>
    let s1 := skipWs s
    if s1.head? = some '\x7d' then some (.nil, s1.tail)
    else
      match s1 with
      | [] => none
      | c :: cs =>
        if c = '"' then
          match parseStrBody cs with
          | none => none
          | some (kcs, r) =>
            match skipWs r with
            | ':' :: r2 =>
              match parseJ f r2 with
              | none => none
              | some (v, r3) =>
                let r4 := skipWs r3
                if r4.head? = some ',' then
                  match parseObjMembers f r4.tail with
                  | some (tl, r5) => some (.cons (String.mk kcs) v tl, r5)
                  | none => none
                else if r4.head? = some '\x7d' then
                  some (.cons (String.mk kcs) v .nil, r4.tail)
                else none
            | _ => none
        else none
end

/-- `serde_json::from_str`: parse a complete JSON document; trailing
whitespace is allowed, any other trailing input is an error. -/
def fromStr (s : List Char) : Option Json :=
  match parseJ (s.length + 1) s with
  | some (v, rest) => if rest.all isWsChar then some v else none
  | none => none

-- Sanity checks on the parser.
example : fromStr "null".data = some .null := by decide
example : fromStr " \x7b\"a\":[1,-2,\"x\\n\"],\"b\":false\x7d \r\n".data =
    some (.obj (.cons "a"
      (.arr (.cons (.num 1) (.cons (.num (-2)) (.cons (.str "x\n") .nil))))
      (.cons "b" (.bool false) .nil))) := by decide
example : fromStr "nul".data = none := by decide
example : fromStr "\x7b\"a\":1\x7d junk".data = none := by decide

/-! ## Wire framing (`generate_rpc_request`) -/

/-- `main.rs::generate_rpc_request`: append `"\r\n"` to the compact
serialization, declare the byte length of that string (serialization plus the
two CRLF bytes) as `Content-Length`, and emit header, blank line, body. -/
def generate_rpc_request (request : Json) : List Char :=
  let request_json := serJson request ++ ['\r', '\n']
  let content_length := utf8Len request_json
  "Content-Length: ".data ++ natDigits content_length ++
    ['\r', '\n', '\r', '\n'] ++ request_json

/-! ## Request builders (`create_request` and the per-method builders) -/

def RPC_VERSION : String := "2.0"

def LANGUAGE_ID : String := "c"

/-- `create_request`: the JSON-RPC envelope; the `id` member is added only
when an identifier is supplied. -/
def create_request (method : String) (params : Json) (id : Option Int) : Json :=
  match id with
  | none =>
    .obj (.cons "jsonrpc" (.str RPC_VERSION)
      (.cons "method" (.str method)
        (.cons "params" params .nil)))
  | some idv =>
    .obj (.cons "jsonrpc" (.str RPC_VERSION)
      (.cons "method" (.str method)
        (.cons "params" params
          (.cons "id" (.num idv) .nil))))

/-- The envelope built inside `initialize_request`. -/
def initialize_envelope (n : Int) : Json :=
  create_request "initialize" (.obj .nil) (some n)

def initialize_request (n : Int) : List Char :=
  generate_rpc_request (initialize_envelope n)

/-- The envelope built inside `did_open_request` (a notification: no id). -/
def did_open_envelope (file_uri_str source : String) : Json :=
  create_request "textDocument/didOpen"
    (.obj (.cons "textDocument"
      (.obj (.cons "uri" (.str file_uri_str)
        (.cons "languageId" (.str LANGUAGE_ID)
          (.cons "version" (.num 1)
            (.cons "text" (.str source) .nil))))) .nil))
    none

def did_open_request (file_uri_str source : String) : List Char :=
  generate_rpc_request (did_open_envelope file_uri_str source)

/-- The envelope built inside `definition_request`. -/
def definition_envelope (n : Int) (file_uri_str : String) (line character : Nat) : Json :=
  create_request "textDocument/definition"
    (.obj (.cons "textDocument" (.obj (.cons "uri" (.str file_uri_str) .nil))
      (.cons "position" (.obj (.cons "line" (.num line)
        (.cons "character" (.num character) .nil))) .nil)))
    (some n)

def definition_request (n : Int) (file_uri_str : String) (line character : Nat) : List Char :=
  generate_rpc_request (definition_envelope n file_uri_str line character)

/-- The envelope built inside `document_symbol_request`. -/
def document_symbol_envelope (n : Int) (file_uri_str : String) : Json :=
  create_request "textDocument/documentSymbol"
    (.obj (.cons "textDocument" (.obj (.cons "uri" (.str file_uri_str) .nil)) .nil))
    (some n)

def document_symbol_request (n : Int) (file_uri_str : String) : List Char :=
  generate_rpc_request (document_symbol_envelope n file_uri_str)

/-- The envelope built inside `did_close_request` (a notification: no id). -/
def did_close_envelope (file_uri_str : String) : Json :=
  create_request "textDocument/didClose"
    (.obj (.cons "textDocument" (.obj (.cons "uri" (.str file_uri_str) .nil)) .nil))
    none

def did_close_request (file_uri_str : String) : List Char :=
  generate_rpc_request (did_close_envelope file_uri_str)

/-- The envelope built inside `exit_request` (a notification: no id). -/
def exit_envelope : Json := create_request "exit" .null none

def exit_request : List Char := generate_rpc_request exit_envelope

/-! ## The request counter (`struct Count(i32)`)

`Count::inc` performs `self.0 += 1` on an `i32`.  In a release build this
wraps on overflow (two's complement); `wrapI32` makes that explicit.  (In a
debug build the increment would instead abort the process at the same point,
so the wrap is the only build in which the overflowing identifier is ever
issued.) -/

def wrapI32 (n : Int) : Int := (n + 2147483648) % 4294967296 - 2147483648

structure Count where
  val : Int
  deriving DecidableEq

/-- `Count::inc`: increment and return the new value. -/
def Count.inc (c : Count) : Int × Count :=
  (wrapI32 (c.val + 1), ⟨wrapI32 (c.val + 1)⟩)

/-! ## Frame decoding (`consume_json_rpc_message`) -/

/-- `BufRead::read_line`: everything up to and including the first `'\n'`
(or up to end of stream), plus the remainder. -/
def readLine : List Char → List Char × List Char
  | [] => ([], [])
  | c :: cs =>
    if c = '\n' then ([c], cs)
    else
      let p := readLine cs
      (c :: p.1, p.2)

/-- `Read::read_exact` into an `n`-byte buffer, with byte positions measured
in UTF-8 units; `none` when the stream is too short (or a character boundary
is crossed, which never happens on streams this program itself produced). -/
def takeBytes : Nat → List Char → Option (List Char × List Char)
  | 0, s => some ([], s)
  | _ + 1, [] => none
  | n + 1, c :: cs =>
    if c.utf8Size ≤ n + 1 then
      match takeBytes (n + 1 - c.utf8Size) cs with
      | some (a, b) => some (c :: a, b)
      | none => none
    else none

def stripPrefixRepAux : Nat → List Char → List Char → List Char
  | 0, _, s => s
  | f + 1, p, s =>
    if p.isPrefixOf s then stripPrefixRepAux f p (s.drop p.length) else s

/-- `str::trim_start_matches` with a string pattern: strip every leading
occurrence of the pattern. -/
def trim_start_matches (p s : List Char) : List Char :=
  stripPrefixRepAux (s.length + 1) p s

def trimEnd (s : List Char) : List Char := (skipWs s.reverse).reverse

/-- `str::trim` (whitespace restricted to the ASCII class this program can
encounter on these paths). -/
def rustTrim (s : List Char) : List Char := trimEnd (skipWs s)

/-- `str::parse::<usize>`: an optional `'+'`, then one or more digits and
nothing else.  (The `usize` range bound is not modelled; see the header.) -/
def parseUsize (s : List Char) : Option Nat :=
  let t := if s.head? = some '+' then s.tail else s
  if t.isEmpty then none
  else if t.all Char.isDigit then some (digitsAux 0 t).1
  else none

/-- Outcome of one `consume_json_rpc_message` call: either a panic (an
`expect` fired) or the returned value together with the unread remainder of
the stream, the `eprintln` diagnostics and the `println` output it emitted. -/
inductive ConsumeOut where
  | panic (msg : String) : ConsumeOut
  | out (val : Option Json) (rest : List Char) (errs outs : List String) : ConsumeOut
  deriving DecidableEq

/-- `main.rs::consume_json_rpc_message`. -/
def consume_json_rpc_message (s : List Char) : ConsumeOut :=
  let p := readLine s
  let line := p.1
  let rest := p.2
  if line = [] then .out none rest [] []
  else if ("Content-Length: ".data).isPrefixOf line then
    let length_str := trim_start_matches "Content-Length: ".data line
    match parseUsize (rustTrim length_str) with
    | none => .panic "Failed to parse Content-Length"
    | some length =>
      match takeBytes 2 rest with
      | none => .panic "Failed to read delimiter"
      | some (_, rest2) =>
        match takeBytes length rest2 with
        | none => .panic "Failed to read JSON message"
        | some (jsonBuf, rest3) =>
          let json_str := trimEnd jsonBuf
          if json_str = [] then
            .out none rest3 ["Received empty JSON message"] []
          else
            match fromStr json_str with
            | some v => .out (some v) rest3 [] []
            | none =>
              .out none rest3 [] ["\x1b[33m" ++ String.mk json_str ++ "\x1b[0m"]
  else
    .out none rest ["Unexpected line: \x1b[31m" ++ String.mk line ++ "\x1b[0m"] []

-- Sanity: decoding an encoded frame returns the original value (concrete case).
example : consume_json_rpc_message (generate_rpc_request (.num 5)) =
    .out (some (.num 5)) [] [] [] := by decide
example : consume_json_rpc_message "Content-Length: abc\r\n\r\n".data =
    .panic "Failed to parse Content-Length" := by decide

/-! ## Pretty printing (`serde_json::to_string_pretty`)

Two-space indentation, exactly as `serde_json`'s pretty formatter.  For
`Value` inputs pretty-printing is total (it can fail only for non-string map
keys, which `Value` cannot contain), so the source's `map_err`/`unwrap_or_else`
arms around it are dead and it is modelled as a plain function. -/

def indentChars (n : Nat) : List Char := List.replicate (2 * n) ' '

mutual
def serPretty : Nat → Json → List Char
  | _, .null => ['n', 'u', 'l', 'l']
  | _, .bool true => ['t', 'r', 'u', 'e']
  | _, .bool false => ['f', 'a', 'l', 's', 'e']
  | _, .num n => intChars n
  | _, .str s => serStr s
  | _, .arr .nil => ['[', ']']
  | ind, .arr (.cons x tl) =>
    '[' :: '\n' :: serPrettyArr (ind + 1) (.cons x tl) ++
      '\n' :: (indentChars ind ++ [']'])
  | _, .obj .nil => ['\x7b', '\x7d']
  | ind, .obj (.cons k v tl) =>
    '\x7b' :: '\n' :: serPrettyObj (ind + 1) (.cons k v tl) ++
      '\n' :: (indentChars ind ++ ['\x7d'])

def serPrettyArr : Nat → JsonArr → List Char
  | _, .nil => []
  | ind, .cons x .nil => indentChars ind ++ serPretty ind x
  | ind, .cons x (.cons y tl) =>
    indentChars ind ++ serPretty ind x ++ ',' :: '\n' :: serPrettyArr ind (.cons y tl)

def serPrettyObj : Nat → JsonObj → List Char
  | _, .nil => []
  | ind, .cons k v .nil => indentChars ind ++ serStr k ++ ':' :: ' ' :: serPretty ind v
  | ind, .cons k v (.cons k2 v2 tl) =>
    indentChars ind ++ serStr k ++ ':' :: ' ' :: serPretty ind v ++
      ',' :: '\n' :: serPrettyObj ind (.cons k2 v2 tl)
end

def to_string_pretty (v : Json) : String := String.mk (serPretty 0 v)

/-! ## Response rendering (`display_*`, from `main.rs`) -/

/-- `Value::as_i64` (numbers in this model are already integers). -/
def as_i64 : Json → Option Int
  | .num n => some n
  | _ => none

/-- `Value::as_str`. -/
def as_str : Json → Option String
  | .str s => some s
  | _ => none

/-- `Display for Value` is the compact serialization. -/
def jsonDisplay (v : Json) : String := String.mk (serJson v)

def intDisplay (n : Int) : String := String.mk (intChars n)

/-- `main.rs::display_range`: never fails, only prints. -/
def display_range (range : Json) : List String :=
  match range.get "end" with
  | some e =>
    match range.get "start" with
    | some st =>
      ["Start: line " ++ intDisplay (((st.get "line").bind as_i64).getD (-1)) ++
       ", character " ++ intDisplay (((st.get "character").bind as_i64).getD (-1)) ++
       ", End: line " ++ intDisplay (((e.get "line").bind as_i64).getD (-1)) ++
       ", character " ++ intDisplay (((e.get "character").bind as_i64).getD (-1))]
    | none => ["Start range missing."]
  | none => ["Range missing."]

def displayDefItems : JsonArr → List String
  | .nil => []
  | .cons item tl =>
    (match item.get "uri" with
     | some uri =>
       ("Definition found at URI: " ++ jsonDisplay uri) ::
       (match item.get "range" with
        | some range => display_range range
        | none => ["Definition found but range is missing."])
     | none => ["Definition found but URI is missing."]) ++ displayDefItems tl

/-- `main.rs::display_definition`: `Err` only when `result` is absent. -/
def display_definition (json_value : Json) : Except String (List String) :=
  match json_value.get "result" with
  | some result =>
    if result = .null then .ok ["No definition found."]
    else
      match result with
      | .arr .nil => .ok ["No definition found."]
      | .arr xs => .ok (displayDefItems xs)
      | _ => .ok []
  | none => .error "No result found in JSON response"

def displaySymbolItems : JsonArr → Except String (List String)
  | .nil => .ok []
  | .cons symbol tl =>
    match symbol.get "name" with
    | none => .error "Symbol found but name is missing."
    | some nameV =>
      match as_str nameV with
      | none => .error "Invalid symbol name"
      | some name =>
        match symbol.get "location" with
        | none => .error "Symbol found but location is missing."
        | some location =>
          match location.get "range" with
          | none => .error "Symbol location found but range is missing."
          | some range =>
            match location.get "uri" with
            | none => .error "Symbol location found but URI is missing."
            | some uriV =>
              match as_str uriV with
              | none => .error "Invalid symbol URI"
              | some uri =>
                match displaySymbolItems tl with
                | .ok rest =>
                  .ok (("Symbol name: " ++ name ++ "\nSymbol URI: " ++ uri ++
                    "\nSymbol location range:") :: display_range range ++ rest)
                | .error e => .error e

/-- `main.rs::display_symbols`. -/
def display_symbols (json_value : Json) : Except String (List String) :=
  match json_value.get "result" with
  | none => .error "No result found in JSON response"
  | some r =>
    match r with
    | .arr .nil => .error "No symbols found."
    | .arr xs => displaySymbolItems xs
    | _ => .error "No symbols found."

/-- The correlation lookup inside `display_json_rpc_message`: the first
command in the shared table whose `id` member equals the response's. -/
def resolve (commands : List Json) (idv : Json) : Option Json :=
  commands.find? (fun c => c.get "id" == some idv)

/-- `main.rs::display_json_rpc_message`: returns the printed lines, or the
error that `handle_stdout` reacts to by leaving its loop. -/
def display_json_rpc_message (json_value : Option Json) (commands : List Json) :
    Except String (List String) :=
  match json_value with
  | none => .error "No JSON message received"
  | some value =>
    match value.get "id" with
    | some idv =>
      match resolve commands idv with
      | some command =>
        let method := ((command.get "method").bind as_str).getD "Unknown method"
        if method = "textDocument/definition" then display_definition value
        else if method = "textDocument/documentSymbol" then display_symbols value
        else
          .ok ["Command: " ++ to_string_pretty command,
               "Response: " ++ to_string_pretty value]
      | none =>
        .ok ["\x1b[32m" ++ to_string_pretty value ++ "\x1b[0m"]
    | none =>
      .ok ["\x1b[32m" ++ to_string_pretty value ++ "\x1b[0m"]

/-! ## The stdout pump (`handle_stdout`) -/

/-- Trace of a `handle_stdout` run: the values decoded and displayed, the
diagnostics written to stderr, and how the loop ended (a panic inside
`consume_json_rpc_message`, a `display_json_rpc_message` error followed by
`break`, or fuel exhaustion — the real loop is unbounded). -/
inductive PumpOut where
  | panicked (decoded : List Json) (errs : List String) (msg : String) : PumpOut
  | stopped (decoded : List Json) (errs : List String) (finalErr : String) : PumpOut
  | fuelOut (decoded : List Json) (errs : List String) : PumpOut
  deriving DecidableEq

def PumpOut.consLog (v : Option Json) (es : List String) : PumpOut → PumpOut
  | .panicked d e m => .panicked (v.toList ++ d) (es ++ e) m
  | .stopped d e m => .stopped (v.toList ++ d) (es ++ e) m
  | .fuelOut d e => .fuelOut (v.toList ++ d) (es ++ e)

/-- `main.rs::handle_stdout`: decode a frame, display it, stop on a display
error, otherwise continue with the rest of the stream. -/
def handle_stdout (commands : List Json) : Nat → List Char → PumpOut
  | 0, _ => .fuelOut [] []
  | f + 1, s =>
    match consume_json_rpc_message s with
    | .panic m => .panicked [] [] m
    | .out val rest errs _ =>
      match display_json_rpc_message val commands with
      | .error e => .stopped val.toList (errs ++ [e]) e
      | .ok _ => PumpOut.consLog val errs (handle_stdout commands f rest)

/-! ## The interactive loop (`handle_stdin`) -/

/-- Occurrences of `sep` in `s`: index of the first one, if any. -/
def findSubIdx (sep : List Char) : List Char → Option Nat
  | [] => if sep = [] then some 0 else none
  | c :: cs =>
    if sep.isPrefixOf (c :: cs) then some 0
    else (findSubIdx sep cs).map (· + 1)

def splitOnSubAux : Nat → List Char → List Char → List (List Char)
  | 0, _, s => [s]
  | f + 1, sep, s =>
    match findSubIdx sep s with
    | none => [s]
    | some i => s.take i :: splitOnSubAux f sep (s.drop (i + sep.length))

/-- `str::split` with a string pattern (the list of segments between
occurrences). -/
def splitOnSub (sep s : List Char) : List (List Char) :=
  splitOnSubAux (s.length + 1) sep s

/-- The `def`/`sym` bookkeeping step in `handle_stdin`: re-parse the envelope
out of the just-encoded frame (`split("\r\n\r\n").last()` then
`serde_json::from_str`).  `none` models the two `expect` panics on this path
(proved unreachable below). -/
def reparse (request : List Char) : Option Json :=
  match (splitOnSub "\r\n\r\n".data request).getLast? with
  | some seg => fromStr seg
  | none => none

/-- State of the interactive loop: the counter, the shared `commands` table,
the frames written to the child's stdin, and the trace of values returned by
`Count::inc` (the issued request identifiers, in issuance order). -/
structure St where
  count : Count
  commands : List Json
  sent : List (List Char)
  ids : List Int
  deriving DecidableEq

/-- One iteration of the `handle_stdin` command loop on a non-empty console
line; `none` models a panic, the `Bool` is `true` when the loop breaks
(`quit`).  Mirrors the `match command.trim()` in `main.rs`. -/
def stepCmd (file_uri : String) (s : St) (command : String) : Option (St × Bool) :=
  if String.mk (rustTrim command.data) = "help" then
    some ({ s with commands := s.commands ++ [Json.str "help"] }, false)
  else if String.mk (rustTrim command.data) = "def" then
    match reparse (definition_request s.count.inc.1 file_uri 9 4) with
    | some json_value =>
      some ({ count := s.count.inc.2, commands := s.commands ++ [json_value],
              sent := s.sent ++ [definition_request s.count.inc.1 file_uri 9 4],
              ids := s.ids ++ [s.count.inc.1] }, false)
    | none => none
  else if String.mk (rustTrim command.data) = "sym" then
    match reparse (document_symbol_request s.count.inc.1 file_uri) with
    | some json_value =>
      some ({ count := s.count.inc.2, commands := s.commands ++ [json_value],
              sent := s.sent ++ [document_symbol_request s.count.inc.1 file_uri],
              ids := s.ids ++ [s.count.inc.1] }, false)
    | none => none
  else if String.mk (rustTrim command.data) = "quit" then
    some ({ s with commands := s.commands ++ [Json.str "quit"] }, true)
  else
    some ({ s with commands := s.commands ++ [Json.str "unknown"] }, false)

/-- The `loop` in `handle_stdin`.  `lines` is the console input, one
`readline()` result per element (each element still carries its trailing
newline); the end of the list is end-of-input, where `readline` returns an
empty buffer and `command.is_empty()` breaks the loop. -/
def runLoop (file_uri : String) (s : St) : List String → Option St
  | [] => some s
  | line :: restLines =>
    if line = "" then some s
    else
      match stepCmd file_uri s line with
      | none => none
      | some (s2, brk) => if brk then some s2 else runLoop file_uri s2 restLines

/-- `main.rs::handle_stdin`: send `initialize` (consuming identifier 1) and
`didOpen`, run the command loop, then send `didClose` and `exit`. -/
def handle_stdin (file_uri source : String) (lines : List String) : Option St :=
  let pr := Count.inc ⟨0⟩
  let s0 : St := { count := pr.2, commands := [],
                   sent := [initialize_request pr.1, did_open_request file_uri source],
                   ids := [pr.1] }
  match runLoop file_uri s0 lines with
  | none => none
  | some s1 =>
    some { s1 with sent := s1.sent ++ [did_close_request file_uri, exit_request] }

-- Sanity: two `def` commands register two envelopes with ids 2 and 3.
example : (handle_stdin "file:///a.c" "x" ["def\n", "def\n"]).map St.ids =
    some [1, 2, 3] := by decide
example : (handle_stdin "u" "x" ["def\n"]).map St.commands =
    some [definition_envelope 2 "u" 9 4] := by decide
example : (stepCmd "u" ⟨⟨1⟩, [], [], [1]⟩ "\n").map (fun p => (p.1.commands, p.2)) =
    some ([Json.str "unknown"], false) := by decide

/-! ## Lemmas: decimal digits -/

theorem natDigitsAux_append (f : Nat) : ∀ (n : Nat) (acc : List Char),
    natDigitsAux f n acc = natDigitsAux f n [] ++ acc := by
  induction f with
  | zero => intro n acc; simp [natDigitsAux]
  | succ f ih =>
    intro n acc
    by_cases h : n < 10
    · simp [natDigitsAux, h]
    · simp only [natDigitsAux, if_neg h]
      rw [ih (n / 10) (Nat.digitChar (n % 10) :: acc),
        ih (n / 10) [Nat.digitChar (n % 10)]]
      simp

theorem natDigitsAux_fuel : ∀ (n f g : Nat), n < f → n < g →
    natDigitsAux f n [] = natDigitsAux g n [] := by
  intro n
  induction n using Nat.strong_induction_on with
  | _ n ih =>
    intro f g hf hg
    match f, g with
    | f + 1, g + 1 =>
      by_cases h : n < 10
      · simp [natDigitsAux, h]
      · have hd : n / 10 < n := Nat.div_lt_self (by omega) (by omega)
        simp only [natDigitsAux, if_neg h]
        rw [natDigitsAux_append f, natDigitsAux_append g]
        rw [ih (n / 10) hd f g (by omega) (by omega)]

theorem natDigits_small {n : Nat} (h : n < 10) :
    natDigits n = [Nat.digitChar n] := by
  simp [natDigits, natDigitsAux, h]

theorem natDigits_step {n : Nat} (h : 10 ≤ n) :
    natDigits n = natDigits (n / 10) ++ [Nat.digitChar (n % 10)] := by
  have hd : n / 10 < n := Nat.div_lt_self (by omega) (by omega)
  show natDigitsAux (n + 1) n [] = _
  rw [show (natDigitsAux (n + 1) n [] = natDigitsAux n (n / 10)
      (Nat.digitChar (n % 10) :: [])) from by
    simp only [natDigitsAux]; rw [if_neg (by omega)]]
  rw [natDigitsAux_append n]
  unfold natDigits
  rw [natDigitsAux_fuel (n / 10) n (n / 10 + 1) (by omega) (by omega)]

theorem digitChar_isDigit : ∀ d : Nat, d < 10 →
    (Nat.digitChar d).isDigit = true := by decide

theorem digitChar_toNat : ∀ d : Nat, d < 10 →
    (Nat.digitChar d).toNat - '0'.toNat = d := by decide

theorem natDigits_ne_nil (n : Nat) : natDigits n ≠ [] := by
  by_cases h : n < 10
  · rw [natDigits_small h]; simp
  · rw [natDigits_step (by omega)]; simp

theorem natDigits_all_digit : ∀ n : Nat, ∀ c ∈ natDigits n, c.isDigit = true := by
  intro n
  induction n using Nat.strong_induction_on with
  | _ n ih =>
    by_cases h : n < 10
    · rw [natDigits_small h]
      intro c hc
      rw [List.mem_singleton] at hc
      subst hc
      exact digitChar_isDigit n h
    · rw [natDigits_step (by omega)]
      intro c hc
      rcases List.mem_append.mp hc with h1 | h1
      · exact ih (n / 10) (Nat.div_lt_self (by omega) (by omega)) c h1
      · rw [List.mem_singleton] at h1
        subst h1
        exact digitChar_isDigit _ (Nat.mod_lt n (by omega))

/-- Folding the parser's digit accumulator over `natDigits n` adds `n` to the
shifted accumulator and continues into the remainder. -/
theorem digitsAux_natDigits : ∀ (n : Nat) (a : Nat) (r : List Char),
    digitsAux a (natDigits n ++ r) =
      digitsAux (a * 10 ^ (natDigits n).length + n) r := by
  intro n
  induction n using Nat.strong_induction_on with
  | _ n ih =>
    intro a r
    by_cases h : n < 10
    · rw [natDigits_small h]
      simp only [List.singleton_append, List.length_singleton, digitsAux,
        digitChar_isDigit n h, if_true, digitChar_toNat n h, pow_one,
        List.nil_append, List.append_eq]
    · have hd : n / 10 < n := Nat.div_lt_self (by omega) (by omega)
      rw [natDigits_step (by omega), List.append_assoc, List.singleton_append]
      rw [ih (n / 10) hd a (Nat.digitChar (n % 10) :: r)]
      have hm : n % 10 < 10 := Nat.mod_lt n (by omega)
      simp only [digitsAux, digitChar_isDigit _ hm, if_true, digitChar_toNat _ hm]
      rw [List.length_append, List.length_singleton]
      congr 1
      rw [pow_succ]
      have := Nat.div_add_mod n 10
      ring_nf
      omega

theorem digitsAux_stop_cons {c : Char} (hc : c.isDigit = false) (a : Nat)
    (r : List Char) : digitsAux a (c :: r) = (a, c :: r) := by
  simp [digitsAux, hc]

/-- Parsing the digits of `n` with a fresh accumulator yields exactly `n`. -/
theorem digitsAux_natDigits_zero (n : Nat) (r : List Char) :
    digitsAux 0 (natDigits n ++ r) = digitsAux n r := by
  rw [digitsAux_natDigits]; simp

/-! ## Lemmas: string escaping -/

theorem hexVal_hexDigitChar : ∀ n : Nat, n < 16 →
    hexVal (hexDigitChar n) = some n := by decide

theorem charOfNatAux_toNat (c : Char) (h : Nat.isValidChar c.toNat) :
    Char.ofNatAux c.toNat h = c := rfl

theorem string_mk_data (s : String) : String.mk s.data = s := rfl

/-- Unescaping inverts `serde_json`'s escaping, character by character. -/
theorem parseStrBody_escape : ∀ (s r : List Char),
    parseStrBody (escapeList s ++ '"' :: r) = some (s, r) := by
  intro s
  induction s with
  | nil => intro r; rw [escapeList, List.nil_append, parseStrBody.eq_def]; simp
  | cons c cs ih =>
    intro r
    rw [escapeList, List.append_assoc]
    by_cases h1 : c = '"'
    · subst h1; rw [show escapeChar '"' = ['\\', '"'] from rfl]
      rw [List.cons_append, List.cons_append, List.nil_append, parseStrBody.eq_def]
      simp [decodeEsc, ih]
    · by_cases h2 : c = '\\'
      · subst h2; rw [show escapeChar '\\' = ['\\', '\\'] from rfl]
        rw [List.cons_append, List.cons_append, List.nil_append, parseStrBody.eq_def]
        simp [decodeEsc, ih]
      · by_cases h3 : c = '\x08'
        · subst h3; rw [show escapeChar '\x08' = ['\\', 'b'] from rfl]
          rw [List.cons_append, List.cons_append, List.nil_append, parseStrBody.eq_def]
          simp [decodeEsc, ih]
        · by_cases h4 : c = '\t'
          · subst h4; rw [show escapeChar '\t' = ['\\', 't'] from rfl]
            rw [List.cons_append, List.cons_append, List.nil_append, parseStrBody.eq_def]
            simp [decodeEsc, ih]
          · by_cases h5 : c = '\n'
            · subst h5; rw [show escapeChar '\n' = ['\\', 'n'] from rfl]
              rw [List.cons_append, List.cons_append, List.nil_append, parseStrBody.eq_def]
              simp [decodeEsc, ih]
            · by_cases h6 : c = '\x0c'
              · subst h6; rw [show escapeChar '\x0c' = ['\\', 'f'] from rfl]
                rw [List.cons_append, List.cons_append, List.nil_append, parseStrBody.eq_def]
                simp [decodeEsc, ih]
              · by_cases h7 : c = '\r'
                · subst h7; rw [show escapeChar '\r' = ['\\', 'r'] from rfl]
                  rw [List.cons_append, List.cons_append, List.nil_append, parseStrBody.eq_def]
                  simp [decodeEsc, ih]
                · by_cases h8 : c.toNat < 0x20
                  · have hdiv : c.toNat / 16 < 16 := by omega
                    have hmod : c.toNat % 16 < 16 := by omega
                    have hvalid : Nat.isValidChar c.toNat := Or.inl (by omega)
                    rw [escapeChar, if_neg h1, if_neg h2, if_neg h3, if_neg h4,
                      if_neg h5, if_neg h6, if_neg h7, if_pos h8]
                    simp only [List.cons_append, List.nil_append]
                    rw [parseStrBody.eq_def]
                    simp only [Char.reduceEq, reduceIte,
                      show hexVal '0' = some 0 from by decide,
                      hexVal_hexDigitChar _ hdiv, hexVal_hexDigitChar _ hmod]
                    have h9 : ((0 * 16 + 0) * 16 + c.toNat / 16) * 16 + c.toNat % 16
                        = c.toNat := by omega
                    simp only [h9]
                    rw [dif_pos hvalid, ih, charOfNatAux_toNat]
                  · rw [escapeChar, if_neg h1, if_neg h2, if_neg h3, if_neg h4,
                      if_neg h5, if_neg h6, if_neg h7, if_neg h8]
                    simp only [List.cons_append, List.nil_append]
                    rw [parseStrBody.eq_def]
                    simp only [if_neg h1, if_neg h2, ih]

/-! ## Lemmas: shape of serializer output -/

theorem digit_facts (c : Char) (h : c.isDigit = true) :
    isWsChar c = false ∧ c ≠ ']' ∧ c ≠ '\x7d' ∧ c ≠ '+' ∧ c ≠ 'C' ∧
      c ≠ '\n' ∧ c ≠ '\r' := by
  refine ⟨?_, ?_, ?_, ?_, ?_, ?_, ?_⟩
  · by_contra hw
    rw [Bool.not_eq_false] at hw
    rcases (by simpa [isWsChar] using hw) with ((h1 | h1) | h1) | h1 <;>
      (subst h1; exact absurd h (by decide))
  all_goals (intro h1; subst h1; exact absurd h (by decide))

theorem skipWs_cons_of_not {c : Char} (h : isWsChar c = false) (r : List Char) :
    skipWs (c :: r) = c :: r := by
  simp [skipWs, h]

theorem skipWs_all_not (l : List Char) (h : ∀ c ∈ l, isWsChar c = false) :
    skipWs l = l := by
  cases l with
  | nil => rfl
  | cons c r => exact skipWs_cons_of_not (h c (by simp)) r

theorem utf8Len_append (a b : List Char) :
    utf8Len (a ++ b) = utf8Len a + utf8Len b := by
  induction a with
  | nil => simp [utf8Len]
  | cons c a ih => simp [utf8Len, ih]; omega

theorem natDigits_head_digit (n : Nat) :
    ∃ d t, natDigits n = d :: t ∧ d.isDigit = true := by
  rcases List.exists_cons_of_ne_nil (natDigits_ne_nil n) with ⟨d, t, he⟩
  exact ⟨d, t, he, natDigits_all_digit n d (by rw [he]; simp)⟩

/-- The first character of a serialization is never whitespace nor a
closing bracket or brace. -/
theorem serJson_head (v : Json) :
    ∃ c t, serJson v = c :: t ∧ isWsChar c = false ∧ c ≠ ']' ∧ c ≠ '\x7d' := by
  cases v with
  | num n =>
    show ∃ c t, intChars n = c :: t ∧ _
    rw [intChars]
    by_cases hn : n < 0
    · rw [if_pos hn]
      refine ⟨'-', _, rfl, ?_, ?_, ?_⟩ <;> decide
    · rw [if_neg hn]
      rcases natDigits_head_digit n.natAbs with ⟨d, t, he, hd⟩
      rcases digit_facts d hd with ⟨w1, w2, w3, _⟩
      exact ⟨d, t, he, w1, w2, w3⟩
  | bool b => cases b with
    | false => refine ⟨'f', _, rfl, ?_, ?_, ?_⟩ <;> decide
    | true => refine ⟨'t', _, rfl, ?_, ?_, ?_⟩ <;> decide
  | null => refine ⟨'n', _, rfl, ?_, ?_, ?_⟩ <;> decide
  | str s => refine ⟨'"', _, rfl, ?_, ?_, ?_⟩ <;> decide
  | arr xs => refine ⟨'[', _, rfl, ?_, ?_, ?_⟩ <;> decide
  | obj kvs => refine ⟨'\x7b', _, rfl, ?_, ?_, ?_⟩ <;> decide

theorem serJson_ne_nil (v : Json) : serJson v ≠ [] := by
  rcases serJson_head v with ⟨c, t, he, _⟩
  rw [he]; simp

/-- The last character of a serialization is never whitespace. -/
theorem serJson_last (v : Json) :
    ∃ t c, serJson v = t ++ [c] ∧ isWsChar c = false := by
  cases v with
  | null => exact ⟨['n', 'u', 'l'], 'l', rfl, by decide⟩
  | bool b => cases b with
    | true => exact ⟨['t', 'r', 'u'], 'e', rfl, by decide⟩
    | false => exact ⟨['f', 'a', 'l', 's'], 'e', rfl, by decide⟩
  | num n =>
    show ∃ t c, intChars n = t ++ [c] ∧ _
    have hne := natDigits_ne_nil n.natAbs
    have hmem := List.getLast_mem hne
    have hd := natDigits_all_digit n.natAbs _ hmem
    rcases digit_facts _ hd with ⟨w1, _⟩
    rw [intChars]
    by_cases hn : n < 0
    · rw [if_pos hn]
      refine ⟨'-' :: (natDigits n.natAbs).dropLast, (natDigits n.natAbs).getLast hne,
        ?_, w1⟩
      rw [List.cons_append, List.dropLast_append_getLast hne]
    · rw [if_neg hn]
      exact ⟨(natDigits n.natAbs).dropLast, (natDigits n.natAbs).getLast hne,
        (List.dropLast_append_getLast hne).symm, w1⟩
  | str s =>
    exact ⟨'"' :: escapeList s.data, '"',
      (List.cons_append '"' (escapeList s.data) ['"']).symm, by decide⟩
  | arr xs =>
    exact ⟨'[' :: serArr xs, ']',
      (List.cons_append '[' (serArr xs) [']']).symm, by decide⟩
  | obj kvs =>
    exact ⟨'\x7b' :: serObj kvs, '\x7d',
      (List.cons_append '\x7b' (serObj kvs) ['\x7d']).symm, by decide⟩

theorem hexDigitChar_no_crlf : ∀ n : Nat, n < 16 →
    hexDigitChar n ≠ '\r' ∧ hexDigitChar n ≠ '\n' := by decide

/-- Escaping never emits a raw CR or LF (those characters are themselves
escaped, and every escape sequence consists of visible ASCII). -/
theorem escapeChar_no_crlf (a : Char) : ∀ c ∈ escapeChar a, c ≠ '\r' ∧ c ≠ '\n' := by
  intro c hc
  rw [escapeChar] at hc
  split_ifs at hc with h1 h2 h3 h4 h5 h6 h7 h8
  · exact (by decide : ∀ c ∈ ['\\', '"'], c ≠ '\r' ∧ c ≠ '\n') c hc
  · exact (by decide : ∀ c ∈ ['\\', '\\'], c ≠ '\r' ∧ c ≠ '\n') c hc
  · exact (by decide : ∀ c ∈ ['\\', 'b'], c ≠ '\r' ∧ c ≠ '\n') c hc
  · exact (by decide : ∀ c ∈ ['\\', 't'], c ≠ '\r' ∧ c ≠ '\n') c hc
  · exact (by decide : ∀ c ∈ ['\\', 'n'], c ≠ '\r' ∧ c ≠ '\n') c hc
  · exact (by decide : ∀ c ∈ ['\\', 'f'], c ≠ '\r' ∧ c ≠ '\n') c hc
  · exact (by decide : ∀ c ∈ ['\\', 'r'], c ≠ '\r' ∧ c ≠ '\n') c hc
  · rcases List.mem_cons.mp hc with h | hc
    · subst h; exact (by decide)
    rcases List.mem_cons.mp hc with h | hc
    · subst h; exact (by decide)
    rcases List.mem_cons.mp hc with h | hc
    · subst h; exact (by decide)
    rcases List.mem_cons.mp hc with h | hc
    · subst h; exact (by decide)
    rcases List.mem_cons.mp hc with h | hc
    · subst h; exact hexDigitChar_no_crlf _ (by omega)
    rcases List.mem_singleton.mp hc with rfl
    exact hexDigitChar_no_crlf _ (by omega)
  · rcases (by simpa using hc : c = a) with rfl
    constructor
    · intro h; subst h; exact h8 (by decide)
    · intro h; subst h; exact h8 (by decide)

theorem escapeList_no_crlf (l : List Char) :
    ∀ c ∈ escapeList l, c ≠ '\r' ∧ c ≠ '\n' := by
  induction l with
  | nil => intro c hc; simp [escapeList] at hc
  | cons a l ih =>
    intro c hc
    rw [escapeList] at hc
    rcases List.mem_append.mp hc with h | h
    · exact escapeChar_no_crlf a c h
    · exact ih c h

theorem serStr_no_crlf (s : String) : ∀ c ∈ serStr s, c ≠ '\r' ∧ c ≠ '\n' := by
  intro c hc
  rw [serStr] at hc
  rcases List.mem_cons.mp hc with h | h
  · subst h; exact (by decide)
  · rcases List.mem_append.mp h with h1 | h1
    · exact escapeList_no_crlf s.data c h1
    · rw [List.mem_singleton] at h1; subst h1; exact (by decide)

theorem intChars_no_crlf (n : Int) : ∀ c ∈ intChars n, c ≠ '\r' ∧ c ≠ '\n' := by
  intro c hc
  rw [intChars] at hc
  have hdig : ∀ c ∈ natDigits n.natAbs, c ≠ '\r' ∧ c ≠ '\n' := by
    intro d hd
    rcases digit_facts d (natDigits_all_digit _ d hd) with ⟨_, _, _, _, _, w6, w7⟩
    exact ⟨w7, w6⟩
  split_ifs at hc
  · rcases List.mem_cons.mp hc with h | h
    · subst h; exact (by decide)
    · exact hdig c h
  · exact hdig c hc

/-- No raw CR or LF anywhere in a compact serialization (simultaneously for
values, array bodies and object bodies, by strong induction on size). -/
theorem ser_no_crlf_main : ∀ N : Nat,
    (∀ v : Json, sizeOf v ≤ N → ∀ c ∈ serJson v, c ≠ '\r' ∧ c ≠ '\n') ∧
    (∀ xs : JsonArr, sizeOf xs ≤ N → ∀ c ∈ serArr xs, c ≠ '\r' ∧ c ≠ '\n') ∧
    (∀ kvs : JsonObj, sizeOf kvs ≤ N → ∀ c ∈ serObj kvs, c ≠ '\r' ∧ c ≠ '\n') := by
  intro N
  induction N using Nat.strong_induction_on with
  | _ N IH =>
    refine ⟨?_, ?_, ?_⟩
    · intro v hv c hc
      cases v with
      | null => exact (by decide : ∀ c ∈ ['n', 'u', 'l', 'l'], c ≠ '\r' ∧ c ≠ '\n') c hc
      | bool b =>
        cases b with
        | true => exact (by decide : ∀ c ∈ ['t', 'r', 'u', 'e'], c ≠ '\r' ∧ c ≠ '\n') c hc
        | false =>
          exact (by decide : ∀ c ∈ ['f', 'a', 'l', 's', 'e'], c ≠ '\r' ∧ c ≠ '\n') c hc
      | num n => exact intChars_no_crlf n c hc
      | str s => exact serStr_no_crlf s c hc
      | arr xs =>
        have hlt : sizeOf xs < N := by
          have := hv; simp only [Json.arr.sizeOf_spec] at this; omega
        rcases List.mem_cons.mp hc with h | h
        · subst h; exact (by decide)
        · rcases List.mem_append.mp h with h1 | h1
          · exact (IH (sizeOf xs) hlt).2.1 xs le_rfl c h1
          · rw [List.mem_singleton] at h1; subst h1; exact (by decide)
      | obj kvs =>
        have hlt : sizeOf kvs < N := by
          have := hv; simp only [Json.obj.sizeOf_spec] at this; omega
        rcases List.mem_cons.mp hc with h | h
        · subst h; exact (by decide)
        · rcases List.mem_append.mp h with h1 | h1
          · exact (IH (sizeOf kvs) hlt).2.2 kvs le_rfl c h1
          · rw [List.mem_singleton] at h1; subst h1; exact (by decide)
    · intro xs hxs c hc
      cases xs with
      | nil => simp [serArr] at hc
      | cons x tl =>
        have hx : sizeOf x < N := by
          have := hxs; simp only [JsonArr.cons.sizeOf_spec] at this; omega
        have htl : sizeOf tl < N := by
          have := hxs; simp only [JsonArr.cons.sizeOf_spec] at this; omega
        cases tl with
        | nil => exact (IH (sizeOf x) hx).1 x le_rfl c hc
        | cons y tl2 =>
          rw [serArr] at hc
          rcases List.mem_append.mp hc with h | h
          · exact (IH (sizeOf x) hx).1 x le_rfl c h
          · rcases List.mem_cons.mp h with h1 | h1
            · subst h1; exact (by decide)
            · exact (IH (sizeOf (JsonArr.cons y tl2)) htl).2.1 _ le_rfl c h1
    · intro kvs hkvs c hc
      cases kvs with
      | nil => simp [serObj] at hc
      | cons k v tl =>
        have hv : sizeOf v < N := by
          have := hkvs; simp only [JsonObj.cons.sizeOf_spec] at this; omega
        have htl : sizeOf tl < N := by
          have := hkvs; simp only [JsonObj.cons.sizeOf_spec] at this; omega
        cases tl with
        | nil =>
          rw [serObj] at hc
          rcases List.mem_append.mp hc with h | h
          · exact serStr_no_crlf k c h
          · rcases List.mem_cons.mp h with h1 | h1
            · subst h1; exact (by decide)
            · exact (IH (sizeOf v) hv).1 v le_rfl c h1
        | cons k2 v2 tl2 =>
          rw [serObj] at hc
          rcases List.mem_append.mp hc with h | h
          · rcases List.mem_append.mp h with h0 | h0
            · exact serStr_no_crlf k c h0
            · rcases List.mem_cons.mp h0 with h1 | h1
              · subst h1; exact (by decide)
              · exact (IH (sizeOf v) hv).1 v le_rfl c h1
          · rcases List.mem_cons.mp h with h3 | h3
            · subst h3; exact (by decide)
            · exact (IH (sizeOf (JsonObj.cons k2 v2 tl2)) htl).2.2 _ le_rfl c h3

theorem serJson_no_crlf (v : Json) : ∀ c ∈ serJson v, c ≠ '\r' ∧ c ≠ '\n' :=
  (ser_no_crlf_main (sizeOf v)).1 v le_rfl

/-! ## Lemmas: the parser inverts the serializer -/

theorem parseLit_append : ∀ (lit r : List Char), parseLit lit (lit ++ r) = some r := by
  intro lit
  induction lit with
  | nil => intro r; rfl
  | cons c cs ih => intro r; simp [parseLit, ih]

/-- The next character of the remainder, if any, is not a digit (so that a
just-parsed number does not absorb it). -/
def noDigitHeadB : List Char → Bool
  | [] => true
  | c :: _ => !c.isDigit

theorem digitsAux_stop (m : Nat) (r : List Char) (hr : noDigitHeadB r = true) :
    digitsAux m r = (m, r) := by
  cases r with
  | nil => rfl
  | cons c cs =>
    have : c.isDigit = false := by simpa [noDigitHeadB] using hr
    simp [digitsAux, this]

theorem digitsFull (m : Nat) (r : List Char) (hr : noDigitHeadB r = true) :
    digitsAux 0 (natDigits m ++ r) = (m, r) := by
  rw [digitsAux_natDigits_zero, digitsAux_stop m r hr]

theorem digit_not_letters (c : Char) (h : c.isDigit = true) :
    c ≠ 'n' ∧ c ≠ 't' ∧ c ≠ 'f' ∧ c ≠ '"' ∧ c ≠ '-' ∧ c ≠ '[' ∧ c ≠ '\x7b' := by
  refine ⟨?_, ?_, ?_, ?_, ?_, ?_, ?_⟩ <;>
    (intro h1; subst h1; exact absurd h (by decide))

theorem skipWs_serJson_append (v : Json) (r : List Char) :
    skipWs (serJson v ++ r) = serJson v ++ r := by
  rcases serJson_head v with ⟨c, t, he, hws, _⟩
  rw [he, List.cons_append]
  exact skipWs_cons_of_not hws _

theorem serJson_append_head_ne_rbrack (v : Json) (r : List Char) :
    ¬((serJson v ++ r).head? = some ']') := by
  rcases serJson_head v with ⟨c, t, he, _, hne, _⟩
  rw [he, List.cons_append]
  simp [hne]

theorem serJson_append_head_ne_rbrace (v : Json) (r : List Char) :
    ¬((serJson v ++ r).head? = some '\x7d') := by
  rcases serJson_head v with ⟨c, t, he, _, _, hne⟩
  rw [he, List.cons_append]
  simp [hne]

/-- Parsing inverts serialization: simultaneously for values, array bodies
(up to the closing `]`) and object bodies (up to the closing brace), by
strong induction on size.  The fuel only needs to exceed the length of the
serialized fragment. -/
theorem parse_ser_main : ∀ N : Nat,
    (∀ v : Json, sizeOf v ≤ N → ∀ (f : Nat) (r : List Char),
      (serJson v).length < f → noDigitHeadB r = true →
      parseJ f (serJson v ++ r) = some (v, r)) ∧
    (∀ xs : JsonArr, sizeOf xs ≤ N → ∀ (g : Nat) (r : List Char),
      (serArr xs).length + 1 < g →
      parseArrElems g (serArr xs ++ ']' :: r) = some (xs, r)) ∧
    (∀ kvs : JsonObj, sizeOf kvs ≤ N → ∀ (g : Nat) (r : List Char),
      (serObj kvs).length + 1 < g →
      parseObjMembers g (serObj kvs ++ '\x7d' :: r) = some (kvs, r)) := by
  intro N
  induction N using Nat.strong_induction_on with
  | _ N IH =>
    refine ⟨?_, ?_, ?_⟩
    · -- values
      intro v hv f r hf hr
      match f, hf with
      | f + 1, hf =>
      rw [parseJ.eq_def]
      simp only []
      cases v with
      | null =>
        rw [show serJson Json.null ++ r = 'n' :: 'u' :: 'l' :: 'l' :: r from rfl]
        rw [skipWs_cons_of_not (by decide) _]
        simp only [Char.reduceEq, reduceIte]
        rw [show ('u' :: 'l' :: 'l' :: r) = ['u', 'l', 'l'] ++ r from rfl,
          parseLit_append]
      | bool b =>
        cases b with
        | true =>
          rw [show serJson (Json.bool true) ++ r = 't' :: 'r' :: 'u' :: 'e' :: r from rfl]
          rw [skipWs_cons_of_not (by decide) _]
          simp only [Char.reduceEq, reduceIte]
          rw [show ('r' :: 'u' :: 'e' :: r) = ['r', 'u', 'e'] ++ r from rfl,
            parseLit_append]
        | false =>
          rw [show serJson (Json.bool false) ++ r = 'f' :: 'a' :: 'l' :: 's' :: 'e' :: r
            from rfl]
          rw [skipWs_cons_of_not (by decide) _]
          simp only [Char.reduceEq, reduceIte]
          rw [show ('a' :: 'l' :: 's' :: 'e' :: r) = ['a', 'l', 's', 'e'] ++ r from rfl,
            parseLit_append]
      | num n =>
        rw [show serJson (Json.num n) = intChars n from rfl, intChars]
        by_cases hn : n < 0
        · rw [if_pos hn]
          rcases natDigits_head_digit n.natAbs with ⟨d, ds, he, hd⟩
          rcases digit_facts d hd with ⟨hdws, _⟩
          rcases digit_not_letters d hd with ⟨w1, w2, w3, w4, w5, _⟩
          rw [List.cons_append, skipWs_cons_of_not (by decide) _]
          simp only [Char.reduceEq, reduceIte]
          rw [he, List.cons_append]
          simp only [hd, if_true]
          have key : digitsAux (d.toNat - '0'.toNat) (ds ++ r) = (n.natAbs, r) := by
            have h0 := digitsFull n.natAbs r hr
            rw [he, List.cons_append, digitsAux, hd] at h0
            simpa using h0
          rw [key]
          simp only [Option.some.injEq, Prod.mk.injEq, and_true]
          congr 1
          omega
        · rw [if_neg hn]
          rcases natDigits_head_digit n.natAbs with ⟨d, ds, he, hd⟩
          rcases digit_facts d hd with ⟨hdws, _⟩
          rcases digit_not_letters d hd with ⟨w1, w2, w3, w4, w5, _⟩
          rw [he, List.cons_append, skipWs_cons_of_not hdws _]
          simp only [if_neg w1, if_neg w2, if_neg w3, if_neg w4, if_neg w5, hd, if_true]
          have key : digitsAux (d.toNat - '0'.toNat) (ds ++ r) = (n.natAbs, r) := by
            have h0 := digitsFull n.natAbs r hr
            rw [he, List.cons_append, digitsAux, hd] at h0
            simpa using h0
          rw [key]
          simp only [Option.some.injEq, Prod.mk.injEq, and_true]
          congr 1
          omega
      | str s =>
        rw [show serJson (Json.str s) ++ r
          = '"' :: (escapeList s.data ++ '"' :: r) from by
            rw [show serJson (Json.str s) = serStr s from rfl, serStr]; simp]
        rw [skipWs_cons_of_not (by decide) _]
        simp only [Char.reduceEq, reduceIte]
        rw [parseStrBody_escape]
      | arr xs =>
        have hlen : (serArr xs).length + 1 < f := by
          have : (serJson (Json.arr xs)).length = (serArr xs).length + 2 := by
            rw [show serJson (Json.arr xs) = ('[' :: serArr xs) ++ [']'] from rfl]
            simp
          omega
        have hsz : sizeOf xs < N := by
          have := hv; simp only [Json.arr.sizeOf_spec] at this; omega
        rw [show serJson (Json.arr xs) ++ r = '[' :: (serArr xs ++ ']' :: r) from by
          rw [show serJson (Json.arr xs) = ('[' :: serArr xs) ++ [']'] from rfl]
          simp]
        rw [skipWs_cons_of_not (by decide) _]
        simp only [Char.reduceEq, reduceIte,
          show ('[').isDigit = false from by decide, Bool.false_eq_true]
        rw [(IH (sizeOf xs) hsz).2.1 xs le_rfl f r hlen]
      | obj kvs =>
        have hlen : (serObj kvs).length + 1 < f := by
          have : (serJson (Json.obj kvs)).length = (serObj kvs).length + 2 := by
            rw [show serJson (Json.obj kvs) = ('\x7b' :: serObj kvs) ++ ['\x7d'] from rfl]
            simp
          omega
        have hsz : sizeOf kvs < N := by
          have := hv; simp only [Json.obj.sizeOf_spec] at this; omega
        rw [show serJson (Json.obj kvs) ++ r = '\x7b' :: (serObj kvs ++ '\x7d' :: r) from by
          rw [show serJson (Json.obj kvs) = ('\x7b' :: serObj kvs) ++ ['\x7d'] from rfl]
          simp]
        rw [skipWs_cons_of_not (by decide) _]
        simp only [Char.reduceEq, reduceIte,
          show ('\x7b').isDigit = false from by decide, Bool.false_eq_true]
        rw [(IH (sizeOf kvs) hsz).2.2 kvs le_rfl f r hlen]
    · -- array elements
      intro xs hxs g r hg
      match g, hg with
      | g + 1, hg =>
      rw [parseArrElems.eq_def]
      simp only []
      cases xs with
      | nil =>
        rw [show serArr JsonArr.nil ++ ']' :: r = ']' :: r from rfl]
        rw [skipWs_cons_of_not (by decide) _]
        simp
      | cons x tl =>
        have hx : sizeOf x < N := by
          have := hxs; simp only [JsonArr.cons.sizeOf_spec] at this; omega
        cases tl with
        | nil =>
          rw [show serArr (JsonArr.cons x JsonArr.nil) = serJson x from rfl]
          rw [skipWs_serJson_append, if_neg (serJson_append_head_ne_rbrack x _)]
          have hfx : (serJson x).length < g := by
            have : serArr (JsonArr.cons x JsonArr.nil) = serJson x := rfl
            rw [this] at hg; omega
          rw [(IH (sizeOf x) hx).1 x le_rfl g (']' :: r) hfx rfl]
          simp only []
          rw [skipWs_cons_of_not (by decide) _]
          simp
        | cons y tl2 =>
          have htl : sizeOf (JsonArr.cons y tl2) < N := by
            have := hxs; simp only [JsonArr.cons.sizeOf_spec] at this ⊢; omega
          have hshape : serArr (JsonArr.cons x (JsonArr.cons y tl2)) ++ ']' :: r
              = serJson x ++ (',' :: (serArr (JsonArr.cons y tl2) ++ ']' :: r)) := by
            rw [show serArr (JsonArr.cons x (JsonArr.cons y tl2))
              = serJson x ++ ',' :: serArr (JsonArr.cons y tl2) from rfl]
            simp
          have hlen : (serArr (JsonArr.cons x (JsonArr.cons y tl2))).length
              = (serJson x).length + 1 + (serArr (JsonArr.cons y tl2)).length := by
            rw [show serArr (JsonArr.cons x (JsonArr.cons y tl2))
              = serJson x ++ ',' :: serArr (JsonArr.cons y tl2) from rfl]
            simp
            omega
          have hx1 : 1 ≤ (serJson x).length := by
            rcases serJson_head x with ⟨c, t, he, _⟩
            rw [he]; simp
          have hfx : (serJson x).length < g := by rw [hlen] at hg; omega
          rw [hshape, skipWs_serJson_append, if_neg (serJson_append_head_ne_rbrack x _)]
          rw [(IH (sizeOf x) hx).1 x le_rfl g
            (',' :: (serArr (JsonArr.cons y tl2) ++ ']' :: r)) hfx rfl]
          simp only []
          rw [skipWs_cons_of_not (by decide) _]
          simp only [List.head?_cons, Option.some.injEq, Char.reduceEq, reduceIte,
            List.tail_cons]
          rw [(IH (sizeOf (JsonArr.cons y tl2)) htl).2.1 (JsonArr.cons y tl2)
            le_rfl g r (by omega)]
    · -- object members
      intro kvs hkvs g r hg
      match g, hg with
      | g + 1, hg =>
      rw [parseObjMembers.eq_def]
      simp only []
      cases kvs with
      | nil =>
        rw [show serObj JsonObj.nil ++ '\x7d' :: r = '\x7d' :: r from rfl]
        rw [skipWs_cons_of_not (by decide) _]
        simp
      | cons k v tl =>
        have hv : sizeOf v < N := by
          have := hkvs; simp only [JsonObj.cons.sizeOf_spec] at this; omega
        have hk1 : 2 ≤ (serStr k).length := by
          rw [serStr]; simp
        cases tl with
        | nil =>
          have hshape : serObj (JsonObj.cons k v JsonObj.nil) ++ '\x7d' :: r
              = '"' :: (escapeList k.data ++ '"' :: (':' :: (serJson v ++ '\x7d' :: r))) := by
            rw [show serObj (JsonObj.cons k v JsonObj.nil)
              = serStr k ++ ':' :: serJson v from rfl, serStr]
            simp
          have hlen : (serObj (JsonObj.cons k v JsonObj.nil)).length
              = (serStr k).length + 1 + (serJson v).length := by
            rw [show serObj (JsonObj.cons k v JsonObj.nil)
              = serStr k ++ ':' :: serJson v from rfl]
            simp
            omega
          rw [hshape, skipWs_cons_of_not (by decide) _]
          simp only [List.head?_cons, Option.some.injEq, Char.reduceEq, reduceIte]
          rw [parseStrBody_escape]
          simp only []
          rw [skipWs_cons_of_not (by decide) _]
          simp only []
          rw [(IH (sizeOf v) hv).1 v le_rfl g ('\x7d' :: r) (by omega) rfl]
          simp only []
          rw [skipWs_cons_of_not (by decide) _]
          simp only [List.head?_cons, Option.some.injEq, Char.reduceEq, reduceIte,
            List.tail_cons, string_mk_data]
        | cons k2 v2 tl2 =>
          have htl : sizeOf (JsonObj.cons k2 v2 tl2) < N := by
            have := hkvs; simp only [JsonObj.cons.sizeOf_spec] at this ⊢; omega
          have hshape : serObj (JsonObj.cons k v (JsonObj.cons k2 v2 tl2)) ++ '\x7d' :: r
              = '"' :: (escapeList k.data ++ '"' :: (':' :: (serJson v
                ++ ',' :: (serObj (JsonObj.cons k2 v2 tl2) ++ '\x7d' :: r)))) := by
            rw [show serObj (JsonObj.cons k v (JsonObj.cons k2 v2 tl2))
              = (serStr k ++ ':' :: serJson v) ++ ',' :: serObj (JsonObj.cons k2 v2 tl2)
              from rfl, serStr]
            simp
          have hlen : (serObj (JsonObj.cons k v (JsonObj.cons k2 v2 tl2))).length
              = (serStr k).length + 1 + (serJson v).length + 1
                + (serObj (JsonObj.cons k2 v2 tl2)).length := by
            rw [show serObj (JsonObj.cons k v (JsonObj.cons k2 v2 tl2))
              = (serStr k ++ ':' :: serJson v) ++ ',' :: serObj (JsonObj.cons k2 v2 tl2)
              from rfl]
            simp
            omega
          rw [hshape, skipWs_cons_of_not (by decide) _]
          simp only [List.head?_cons, Option.some.injEq, Char.reduceEq, reduceIte]
          rw [parseStrBody_escape]
          simp only []
          rw [skipWs_cons_of_not (by decide) _]
          simp only []
          rw [(IH (sizeOf v) hv).1 v le_rfl g
            (',' :: (serObj (JsonObj.cons k2 v2 tl2) ++ '\x7d' :: r)) (by omega) rfl]
          simp only []
          rw [skipWs_cons_of_not (by decide) _]
          simp only [List.head?_cons, Option.some.injEq, Char.reduceEq, reduceIte,
            List.tail_cons, string_mk_data]
          rw [(IH (sizeOf (JsonObj.cons k2 v2 tl2)) htl).2.2 _ le_rfl g r (by omega)]

/-- Parsing inverts serialization (value form). -/
theorem parseJ_serJson (v : Json) (f : Nat) (r : List Char)
    (hf : (serJson v).length < f) (hr : noDigitHeadB r = true) :
    parseJ f (serJson v ++ r) = some (v, r) :=
  (parse_ser_main (sizeOf v)).1 v le_rfl f r hf hr

/-! ## Lemmas: `fromStr` and the framing codec -/

theorem fromStr_serJson_ws (v : Json) (w : List Char)
    (hw : w.all isWsChar = true) (hnd : noDigitHeadB w = true) :
    fromStr (serJson v ++ w) = some v := by
  rw [fromStr]
  have hf : (serJson v).length < (serJson v ++ w).length + 1 := by simp; omega
  rw [parseJ_serJson v _ w hf hnd]
  simp only []
  simp [hw]

theorem fromStr_serJson (v : Json) : fromStr (serJson v) = some v := by
  have := fromStr_serJson_ws v [] rfl rfl
  simpa using this

theorem fromStr_serJson_crlf (v : Json) :
    fromStr (serJson v ++ ['\r', '\n']) = some v :=
  fromStr_serJson_ws v ['\r', '\n'] (by decide) (by decide)

theorem trimEnd_crlf (t : List Char) (c : Char) (hws : isWsChar c = false) :
    trimEnd ((t ++ [c]) ++ ['\r', '\n']) = t ++ [c] := by
  rw [trimEnd]
  have h1 : (((t ++ [c]) ++ ['\r', '\n']).reverse) = '\n' :: '\r' :: c :: t.reverse := by
    simp
  rw [h1]
  rw [show skipWs ('\n' :: '\r' :: c :: t.reverse) = skipWs (c :: t.reverse) from by
    simp [skipWs, isWsChar]]
  rw [skipWs_cons_of_not hws]
  simp

theorem trimEnd_serJson_crlf (v : Json) :
    trimEnd (serJson v ++ ['\r', '\n']) = serJson v := by
  rcases serJson_last v with ⟨t, c, he, hws⟩
  rw [he, trimEnd_crlf t c hws]

theorem readLine_append (A : List Char) (hA : ∀ c ∈ A, c ≠ '\n') (rest : List Char) :
    readLine (A ++ '\n' :: rest) = (A ++ ['\n'], rest) := by
  induction A with
  | nil => simp [readLine]
  | cons c t ih =>
    rw [List.cons_append, readLine]
    have hc : ¬(c = '\n') := hA c (by simp)
    rw [if_neg hc, ih (fun d hd => hA d (by simp [hd]))]
    rfl

theorem isPrefixOf_append_self (p t : List Char) : p.isPrefixOf (p ++ t) = true := by
  rw [List.isPrefixOf_iff_prefix]
  exact List.prefix_append p t

theorem isPrefixOf_cons_ne {c d : Char} (h : ¬(c = d)) (p t : List Char) :
    (c :: p).isPrefixOf (d :: t) = false := by
  simp [List.isPrefixOf, h]

theorem stripAux_stop (f : Nat) (p s : List Char) (h : p.isPrefixOf s = false) :
    stripPrefixRepAux f p s = s := by
  cases f with
  | zero => rfl
  | succ f => rw [stripPrefixRepAux, h]; simp

theorem tsm_header (tail : List Char)
    (htail : ("Content-Length: ".data).isPrefixOf tail = false) :
    trim_start_matches "Content-Length: ".data ("Content-Length: ".data ++ tail)
      = tail := by
  rw [trim_start_matches, stripPrefixRepAux, isPrefixOf_append_self]
  simp only [if_true, reduceIte]
  rw [List.drop_left, stripAux_stop _ _ _ htail]

theorem natDigits_all_not_ws (L : Nat) : ∀ c ∈ natDigits L, isWsChar c = false :=
  fun c hc => (digit_facts c (natDigits_all_digit L c hc)).1

theorem rustTrim_digits_crlf (L : Nat) :
    rustTrim (natDigits L ++ ['\r', '\n']) = natDigits L := by
  rcases natDigits_head_digit L with ⟨d, ds, he, hd⟩
  rw [rustTrim, he, List.cons_append,
    skipWs_cons_of_not (digit_facts d hd).1, ← List.cons_append, ← he]
  have hne := natDigits_ne_nil L
  have hlast : isWsChar ((natDigits L).getLast hne) = false :=
    (digit_facts _ (natDigits_all_digit L _ (List.getLast_mem hne))).1
  calc trimEnd (natDigits L ++ ['\r', '\n'])
      = trimEnd (((natDigits L).dropLast ++ [(natDigits L).getLast hne])
          ++ ['\r', '\n']) := by rw [List.dropLast_append_getLast hne]
    _ = (natDigits L).dropLast ++ [(natDigits L).getLast hne] :=
        trimEnd_crlf _ _ hlast
    _ = natDigits L := List.dropLast_append_getLast hne

theorem parseUsize_natDigits (L : Nat) : parseUsize (natDigits L) = some L := by
  rcases natDigits_head_digit L with ⟨d, ds, he, hd⟩
  rw [parseUsize]
  have hplus : ¬((natDigits L).head? = some '+') := by
    rw [he]
    simp only [List.head?_cons, Option.some.injEq]
    exact (digit_facts d hd).2.2.2.1
  rw [if_neg hplus]
  have hne : (natDigits L).isEmpty = false := by
    rw [he]; rfl
  have hall : (natDigits L).all Char.isDigit = true := by
    rw [List.all_eq_true]
    exact natDigits_all_digit L
  rw [hne, hall]
  simp only [Bool.false_eq_true, if_false, if_true, reduceIte]
  have h0 := digitsFull L [] rfl
  rw [List.append_nil] at h0
  rw [h0]

theorem takeBytes_exact (a : List Char) : ∀ r : List Char,
    takeBytes (utf8Len a) (a ++ r) = some (a, r) := by
  induction a with
  | nil => intro r; simp [utf8Len, takeBytes]
  | cons c t ih =>
    intro r
    have h1 : 1 ≤ c.utf8Size := Char.utf8Size_pos c
    have hsz : utf8Len (c :: t) = c.utf8Size + utf8Len t := rfl
    obtain ⟨k, hk⟩ : ∃ k, utf8Len (c :: t) = k + 1 :=
      ⟨utf8Len (c :: t) - 1, by rw [hsz]; omega⟩
    have hk2 : c.utf8Size + utf8Len t = k + 1 := by rw [← hsz, hk]
    rw [hk, List.cons_append, takeBytes]
    rw [if_pos (by omega : c.utf8Size ≤ k + 1)]
    rw [show k + 1 - c.utf8Size = utf8Len t from by omega, ih r]

/-- Decoding an encoded frame yields the encoded value and consumes exactly
the frame, whatever follows on the stream. -/
theorem consume_generate (v : Json) (rest : List Char) :
    consume_json_rpc_message (generate_rpc_request v ++ rest) =
      .out (some v) rest [] [] := by
  have hP : "Content-Length: ".data = 'C' :: "ontent-Length: ".data := by decide
  set L : Nat := utf8Len (serJson v ++ ['\r', '\n']) with hL
  rcases natDigits_head_digit L with ⟨d, ds, he, hd⟩
  have hA : ∀ c ∈ ("Content-Length: ".data ++ natDigits L ++ ['\r'] : List Char),
      c ≠ '\n' := by
    intro c hc
    rcases List.mem_append.mp hc with h | h
    · rcases List.mem_append.mp h with h1 | h1
      · exact (by decide : ∀ c ∈ "Content-Length: ".data, c ≠ '\n') c h1
      · exact (digit_facts c (natDigits_all_digit L c h1)).2.2.2.2.2.1
    · rw [List.mem_singleton] at h; subst h; decide
  have hframe : generate_rpc_request v ++ rest
      = ("Content-Length: ".data ++ natDigits L ++ ['\r']) ++ '\n' ::
        ('\r' :: '\n' :: ((serJson v ++ ['\r', '\n']) ++ rest)) := by
    rw [generate_rpc_request]
    simp
  rw [consume_json_rpc_message, hframe, readLine_append _ hA _]
  simp only []
  have hline : (("Content-Length: ".data ++ natDigits L ++ ['\r']) ++ ['\n'] : List Char)
      = "Content-Length: ".data ++ (natDigits L ++ ['\r', '\n']) := by simp
  rw [hline]
  have hPne : ("Content-Length: ".data : List Char) ≠ [] := by decide
  rw [if_neg (by simp [List.append_eq_nil, hPne])]
  rw [isPrefixOf_append_self]
  simp only [if_true, reduceIte]
  have htail : ("Content-Length: ".data).isPrefixOf (natDigits L ++ ['\r', '\n'])
      = false := by
    rw [he, List.cons_append, hP]
    exact isPrefixOf_cons_ne
      (fun h => (digit_facts d hd).2.2.2.2.1 h.symm) _ _
  rw [tsm_header _ htail, rustTrim_digits_crlf, parseUsize_natDigits]
  simp only []
  rw [show ('\r' :: '\n' :: ((serJson v ++ ['\r', '\n']) ++ rest) : List Char)
    = ['\r', '\n'] ++ ((serJson v ++ ['\r', '\n']) ++ rest) from rfl]
  rw [show (2 : Nat) = utf8Len ['\r', '\n'] from rfl, takeBytes_exact]
  simp only []
  rw [hL, takeBytes_exact]
  simp only []
  rw [trimEnd_serJson_crlf]
  rw [if_neg (serJson_ne_nil v), fromStr_serJson]

-- The concrete sanity checks above already witness this on small inputs.

/-! ## Frame observables (declared length and body, read back off the wire
with the decoder's own operations) -/

/-- The `Content-Length` a frame declares, extracted exactly the way
`consume_json_rpc_message` extracts it. -/
def frameContentLength (frame : List Char) : Option Nat :=
  let p := readLine frame
  if ("Content-Length: ".data).isPrefixOf p.1 then
    parseUsize (rustTrim (trim_start_matches "Content-Length: ".data p.1))
  else none

/-- The body bytes obtained by reading exactly the declared number of bytes
after the blank-line delimiter, together with whatever is left of the
stream. -/
def frameBodyAndRest (frame : List Char) : Option (List Char × List Char) :=
  match frameContentLength frame with
  | some L =>
    match takeBytes 2 (readLine frame).2 with
    | some (_, rest2) => takeBytes L rest2
    | none => none
  | none => none

theorem frameContentLength_generate (v : Json) :
    frameContentLength (generate_rpc_request v)
      = some (utf8Len (serJson v ++ ['\r', '\n'])) := by
  have hP : "Content-Length: ".data = 'C' :: "ontent-Length: ".data := by decide
  set L : Nat := utf8Len (serJson v ++ ['\r', '\n']) with hL
  rcases natDigits_head_digit L with ⟨d, ds, he, hd⟩
  have hA : ∀ c ∈ ("Content-Length: ".data ++ natDigits L ++ ['\r'] : List Char),
      c ≠ '\n' := by
    intro c hc
    rcases List.mem_append.mp hc with h | h
    · rcases List.mem_append.mp h with h1 | h1
      · exact (by decide : ∀ c ∈ "Content-Length: ".data, c ≠ '\n') c h1
      · exact (digit_facts c (natDigits_all_digit L c h1)).2.2.2.2.2.1
    · rw [List.mem_singleton] at h; subst h; decide
  have hframe : generate_rpc_request v
      = ("Content-Length: ".data ++ natDigits L ++ ['\r']) ++ '\n' ::
        ('\r' :: '\n' :: (serJson v ++ ['\r', '\n'])) := by
    rw [generate_rpc_request]
    simp
  rw [frameContentLength, hframe, readLine_append _ hA _]
  simp only []
  have hline : (("Content-Length: ".data ++ natDigits L ++ ['\r']) ++ ['\n'] : List Char)
      = "Content-Length: ".data ++ (natDigits L ++ ['\r', '\n']) := by simp
  rw [hline, isPrefixOf_append_self]
  simp only [if_true, reduceIte]
  have htail : ("Content-Length: ".data).isPrefixOf (natDigits L ++ ['\r', '\n'])
      = false := by
    rw [he, List.cons_append, hP]
    exact isPrefixOf_cons_ne (fun h => (digit_facts d hd).2.2.2.2.1 h.symm) _ _
  rw [tsm_header _ htail, rustTrim_digits_crlf, parseUsize_natDigits]

theorem frameBodyAndRest_generate (v : Json) :
    frameBodyAndRest (generate_rpc_request v)
      = some (serJson v ++ ['\r', '\n'], []) := by
  have hA : ∀ c ∈ ("Content-Length: ".data
      ++ natDigits (utf8Len (serJson v ++ ['\r', '\n'])) ++ ['\r'] : List Char),
      c ≠ '\n' := by
    intro c hc
    rcases List.mem_append.mp hc with h | h
    · rcases List.mem_append.mp h with h1 | h1
      · exact (by decide : ∀ c ∈ "Content-Length: ".data, c ≠ '\n') c h1
      · exact (digit_facts c (natDigits_all_digit _ c h1)).2.2.2.2.2.1
    · rw [List.mem_singleton] at h; subst h; decide
  have hframe : generate_rpc_request v
      = ("Content-Length: ".data ++ natDigits (utf8Len (serJson v ++ ['\r', '\n']))
          ++ ['\r']) ++ '\n' :: ('\r' :: '\n' :: (serJson v ++ ['\r', '\n'])) := by
    rw [generate_rpc_request]
    simp
  rw [frameBodyAndRest, frameContentLength_generate]
  rw [hframe, readLine_append _ hA _]
  simp only []
  rw [show ('\r' :: '\n' :: (serJson v ++ ['\r', '\n']) : List Char)
    = ['\r', '\n'] ++ (serJson v ++ ['\r', '\n']) from rfl]
  rw [show (2 : Nat) = utf8Len ['\r', '\n'] from rfl, takeBytes_exact]
  simp only []
  have := takeBytes_exact (serJson v ++ ['\r', '\n']) []
  rw [List.append_nil] at this
  rw [this]

/-! ## Claim theorems: framing -/

/-- C2: Round-trip framing — for every JSON value `v`, feeding the bytes
produced by the frame encoder (`generate_rpc_request`) into the frame
decoder (`consume_json_rpc_message`) yields back exactly `v` (and consumes
the whole stream, emitting no diagnostics). -/
theorem C2_roundtrip_framing (v : Json) :
    consume_json_rpc_message (generate_rpc_request v)
      = .out (some v) [] [] [] := by
  have h := consume_generate v []
  rwa [List.append_nil] at h

/-- C3 (counterexample): the claim "the body is the minimal JSON
serialization and the declared Content-Length equals the byte length of that
minimal serialization" fails on the concrete value `null`: the encoder
declares length 6 while the minimal serialization `null` is 4 bytes, and the
body carries a trailing CRLF. -/
theorem C3_counterexample :
    frameContentLength (generate_rpc_request Json.null) = some 6 ∧
    utf8Len (serJson Json.null) = 4 ∧
    frameBodyAndRest (generate_rpc_request Json.null)
      = some ("null\r\n".data, []) ∧
    "null\r\n".data ≠ serJson Json.null := by decide

/-- C3 (amended): for every encoded frame, the body is the minimal JSON
serialization **plus a trailing CRLF**, and the declared Content-Length
equals the UTF-8 byte length of the minimal serialization **plus 2** (the
byte length of the body actually sent). -/
theorem C3_amended_length_invariant (v : Json) :
    frameContentLength (generate_rpc_request v)
      = some (utf8Len (serJson v) + 2) ∧
    frameBodyAndRest (generate_rpc_request v)
      = some (serJson v ++ ['\r', '\n'], []) := by
  constructor
  · rw [frameContentLength_generate, utf8Len_append]
    rfl
  · exact frameBodyAndRest_generate v

/-- C9: every frame emitted by `generate_rpc_request` is self-consistent on
the wire — the frame is the header, a blank line, then a body consisting of
the serialized JSON plus `"\r\n"`; the declared Content-Length equals the
exact byte count of that body; and a decoder reading exactly that many bytes
after the delimiter consumes the whole frame and nothing more (empty
remainder). -/
theorem C9_frame_self_consistent (v : Json) :
    generate_rpc_request v
      = "Content-Length: ".data ++ natDigits (utf8Len (serJson v ++ ['\r', '\n']))
        ++ ['\r', '\n', '\r', '\n'] ++ (serJson v ++ ['\r', '\n']) ∧
    frameContentLength (generate_rpc_request v)
      = some (utf8Len (serJson v ++ ['\r', '\n'])) ∧
    frameBodyAndRest (generate_rpc_request v)
      = some (serJson v ++ ['\r', '\n'], []) :=
  ⟨rfl, frameContentLength_generate v, frameBodyAndRest_generate v⟩

/-! ## Claim theorems: request builders and unmatched responses -/

/-- C7: `id` present iff a response is expected: `create_request` places an
`id` member exactly when one is supplied; the notification builders
(`didOpen`, `didClose`, `exit`) never supply one, while `initialize`,
`definition` and `documentSymbol` always do. -/
theorem C7_id_iff_response_expected (n i : Int) (uri source m : String) (p : Json)
    (line character : Nat) :
    (create_request m p (some i)).get "id" = some (Json.num i) ∧
    (create_request m p none).get "id" = none ∧
    (initialize_envelope n).get "id" = some (Json.num n) ∧
    (definition_envelope n uri line character).get "id" = some (Json.num n) ∧
    (document_symbol_envelope n uri).get "id" = some (Json.num n) ∧
    (did_open_envelope uri source).get "id" = none ∧
    (did_close_envelope uri).get "id" = none ∧
    exit_envelope.get "id" = none :=
  ⟨rfl, rfl, rfl, rfl, rfl, rfl, rfl, rfl⟩

theorem display_unmatched_ok (v : Json) (commands : List Json)
    (h : ∀ i, v.get "id" = some i → resolve commands i = none) :
    display_json_rpc_message (some v) commands
      = .ok ["\x1b[32m" ++ to_string_pretty v ++ "\x1b[0m"] := by
  rw [display_json_rpc_message]
  simp only []
  cases hv : v.get "id" with
  | none => rfl
  | some idv =>
    simp only []
    rw [h idv hv]

/-- C8: a decoded response bearing an id that was never registered in the
commands table, or bearing no id at all, is rendered generically (the
green pretty-printed fallback) and `display_json_rpc_message` returns `Ok`. -/
theorem C8_unmatched_response_ok (v : Json) (commands : List Json)
    (h : ∀ i, v.get "id" = some i → resolve commands i = none) :
    display_json_rpc_message (some v) commands
      = .ok ["\x1b[32m" ++ to_string_pretty v ++ "\x1b[0m"] :=
  display_unmatched_ok v commands h

theorem C8_unmatched_response_ok_witness :
    display_json_rpc_message (some (Json.obj JsonObj.nil)) []
      = .ok ["\x1b[32m" ++ to_string_pretty (Json.obj JsonObj.nil) ++ "\x1b[0m"] :=
  C8_unmatched_response_ok (Json.obj JsonObj.nil) []
    (fun _ h => Option.noConfusion h)

/-! ## Splitting the just-encoded frame (the `def`/`sym` bookkeeping path) -/

theorem findSubIdx_cons_ne (sep : List Char) (c : Char) (cs : List Char)
    (h : sep.isPrefixOf (c :: cs) = false) :
    findSubIdx sep (c :: cs) = (findSubIdx sep cs).map (· + 1) := by
  rw [findSubIdx, h]
  simp

theorem findSubIdx_at_sep (B : List Char) :
    findSubIdx ['\r', '\n', '\r', '\n'] ('\r' :: '\n' :: '\r' :: '\n' :: B)
      = some 0 := by
  rw [findSubIdx]
  rw [show ('\r' :: '\n' :: '\r' :: '\n' :: B : List Char)
    = ['\r', '\n', '\r', '\n'] ++ B from rfl, isPrefixOf_append_self]
  simp

theorem findSubIdx_no_cr (A : List Char) (hA : ∀ c ∈ A, c ≠ '\r') (B : List Char) :
    findSubIdx ['\r', '\n', '\r', '\n'] (A ++ '\r' :: '\n' :: '\r' :: '\n' :: B)
      = some A.length := by
  induction A with
  | nil => rw [List.nil_append, findSubIdx_at_sep]; rfl
  | cons c t ih =>
    rw [List.cons_append, findSubIdx_cons_ne _ c _
      (isPrefixOf_cons_ne (fun h => (hA c (by simp)) h.symm) _ _)]
    rw [ih (fun d hd => hA d (by simp [hd]))]
    simp

theorem findSubIdx_none_tail (C : List Char) (hC : ∀ c ∈ C, c ≠ '\r') :
    findSubIdx ['\r', '\n', '\r', '\n'] (C ++ ['\r', '\n']) = none := by
  induction C with
  | nil => decide
  | cons c t ih =>
    rw [List.cons_append, findSubIdx_cons_ne _ c _
      (isPrefixOf_cons_ne (fun h => (hC c (by simp)) h.symm) _ _)]
    rw [ih (fun d hd => hC d (by simp [hd]))]
    rfl

theorem splitOnSubAux_none (f : Nat) (sep s : List Char)
    (h : findSubIdx sep s = none) : splitOnSubAux f sep s = [s] := by
  cases f with
  | zero => rfl
  | succ f => rw [splitOnSubAux, h]

theorem splitOnSub_frame (A C : List Char) (hA : ∀ c ∈ A, c ≠ '\r')
    (hC : ∀ c ∈ C, c ≠ '\r') :
    splitOnSub "\r\n\r\n".data
        (A ++ '\r' :: '\n' :: '\r' :: '\n' :: (C ++ ['\r', '\n']))
      = [A, C ++ ['\r', '\n']] := by
  have hsep : ("\r\n\r\n".data : List Char) = ['\r', '\n', '\r', '\n'] := by decide
  rw [splitOnSub, splitOnSubAux, hsep, findSubIdx_no_cr A hA _]
  simp only []
  have hassoc : (A ++ '\r' :: '\n' :: '\r' :: '\n' :: (C ++ ['\r', '\n']) : List Char)
      = (A ++ ['\r', '\n', '\r', '\n']) ++ (C ++ ['\r', '\n']) := by simp
  rw [show (A ++ '\r' :: '\n' :: '\r' :: '\n' :: (C ++ ['\r', '\n'])).take A.length
      = A from by rw [hassoc, List.append_assoc, List.take_left]]
  rw [show (A ++ '\r' :: '\n' :: '\r' :: '\n' :: (C ++ ['\r', '\n'])).drop
        (A.length + (['\r', '\n', '\r', '\n'] : List Char).length)
      = C ++ ['\r', '\n'] from by
    rw [hassoc]
    exact List.drop_left' (by simp)]
  rw [splitOnSubAux_none _ _ _ (findSubIdx_none_tail C hC)]

/-- Re-parsing a just-encoded frame (split on the blank line, last segment,
`from_str`) recovers exactly the encoded envelope: the `expect`s on this
path cannot fire. -/
theorem reparse_generate (v : Json) :
    reparse (generate_rpc_request v) = some v := by
  set L : Nat := utf8Len (serJson v ++ ['\r', '\n']) with hL
  have hA : ∀ c ∈ ("Content-Length: ".data ++ natDigits L : List Char), c ≠ '\r' := by
    intro c hc
    rcases List.mem_append.mp hc with h | h
    · exact (by decide : ∀ c ∈ "Content-Length: ".data, c ≠ '\r') c h
    · exact (digit_facts c (natDigits_all_digit L c h)).2.2.2.2.2.2
  have hC : ∀ c ∈ serJson v, c ≠ '\r' := fun c hc => (serJson_no_crlf v c hc).1
  have hframe : generate_rpc_request v
      = ("Content-Length: ".data ++ natDigits L)
        ++ '\r' :: '\n' :: '\r' :: '\n' :: (serJson v ++ ['\r', '\n']) := by
    rw [generate_rpc_request]
    simp
  rw [reparse, hframe, splitOnSub_frame _ _ hA hC]
  simp only [List.getLast?_cons_cons, List.getLast?_singleton]
  exact fromStr_serJson_crlf v

/-- C10: for every `def` and `sym` command, re-parsing the just-encoded
frame (splitting on the blank line, taking the last segment, JSON-parsing
it) succeeds — the two `expect` calls on that path are unreachable — and the
envelope recorded in the shared commands table equals the envelope that was
encoded onto the wire. -/
theorem C10_reparse_matches_encoded (n : Int) (uri : String) (line character : Nat) :
    reparse (definition_request n uri line character)
      = some (definition_envelope n uri line character) ∧
    reparse (document_symbol_request n uri)
      = some (document_symbol_envelope n uri) :=
  ⟨reparse_generate _, reparse_generate _⟩

/-! ## The interactive loop: closed forms

Specification-side descriptions of what one run of the command loop
produces: how many identifiers it consumes (`idReqCount`), which identifier
values are issued (`idsSpec`), and which entries are pushed into the shared
commands table (`commandsSpec`).  The invariants below prove `runLoop`
realises them. -/

theorem reparse_definition (n : Int) (uri : String) (line character : Nat) :
    reparse (definition_request n uri line character)
      = some (definition_envelope n uri line character) :=
  reparse_generate _

theorem reparse_document_symbol (n : Int) (uri : String) :
    reparse (document_symbol_request n uri)
      = some (document_symbol_envelope n uri) :=
  reparse_generate _

/-- Number of identifier-consuming commands (`def`/`sym`) the loop processes
before it stops (empty read, `quit`, or end of input). -/
def idReqCount : List String → Nat
  | [] => 0
  | line :: rest =>
    if line = "" then 0
    else if String.mk (rustTrim line.data) = "help" then idReqCount rest
    else if String.mk (rustTrim line.data) = "def" then 1 + idReqCount rest
    else if String.mk (rustTrim line.data) = "sym" then 1 + idReqCount rest
    else if String.mk (rustTrim line.data) = "quit" then 0
    else idReqCount rest

/-- The identifier values `Count::inc` hands out during the loop, starting
from a counter whose current value is `wrapI32 c`. -/
def idsSpec (c : Int) : List String → List Int
  | [] => []
  | line :: rest =>
    if line = "" then []
    else if String.mk (rustTrim line.data) = "help" then idsSpec c rest
    else if String.mk (rustTrim line.data) = "def" then
      wrapI32 (c + 1) :: idsSpec (c + 1) rest
    else if String.mk (rustTrim line.data) = "sym" then
      wrapI32 (c + 1) :: idsSpec (c + 1) rest
    else if String.mk (rustTrim line.data) = "quit" then []
    else idsSpec c rest

/-- The entries the loop pushes into the shared commands table. -/
def commandsSpec (uri : String) (c : Int) : List String → List Json
  | [] => []
  | line :: rest =>
    if line = "" then []
    else if String.mk (rustTrim line.data) = "help" then
      Json.str "help" :: commandsSpec uri c rest
    else if String.mk (rustTrim line.data) = "def" then
      definition_envelope (wrapI32 (c + 1)) uri 9 4 :: commandsSpec uri (c + 1) rest
    else if String.mk (rustTrim line.data) = "sym" then
      document_symbol_envelope (wrapI32 (c + 1)) uri :: commandsSpec uri (c + 1) rest
    else if String.mk (rustTrim line.data) = "quit" then [Json.str "quit"]
    else Json.str "unknown" :: commandsSpec uri c rest

theorem wrapI32_wrap (x : Int) : wrapI32 (wrapI32 x + 1) = wrapI32 (x + 1) := by
  unfold wrapI32
  omega

/-- The loop realises the closed forms: starting from a state whose counter
holds `wrapI32 c`, it never panics and appends exactly the specified
entries, identifiers, and counter movement. -/
theorem runLoop_spec (uri : String) : ∀ (lines : List String) (s : St) (c : Int),
    s.count.val = wrapI32 c →
    ∃ st, runLoop uri s lines = some st ∧
      st.commands = s.commands ++ commandsSpec uri c lines ∧
      st.ids = s.ids ++ idsSpec c lines ∧
      st.count.val = wrapI32 (c + idReqCount lines) := by
  intro lines
  induction lines with
  | nil =>
    intro s c hc
    exact ⟨s, rfl, by simp [commandsSpec], by simp [idsSpec], by
      rw [idReqCount]; simpa using hc⟩
  | cons line rest ih =>
    intro s c hc
    rw [runLoop, idReqCount, idsSpec, commandsSpec]
    by_cases hempty : line = ""
    · rw [if_pos hempty, if_pos hempty, if_pos hempty, if_pos hempty]
      exact ⟨s, rfl, by simp, by simp, by simpa using hc⟩
    rw [if_neg hempty, if_neg hempty, if_neg hempty, if_neg hempty, stepCmd]
    by_cases h1 : String.mk (rustTrim line.data) = "help"
    · rw [if_pos h1, if_pos h1, if_pos h1, if_pos h1]
      simp only []
      rcases ih ⟨s.count, s.commands ++ [Json.str "help"], s.sent, s.ids⟩ c hc
        with ⟨st, hrun, hcmd, hids, hcnt⟩
      exact ⟨st, hrun, by rw [hcmd]; simp, by rw [hids], hcnt⟩
    rw [if_neg h1, if_neg h1, if_neg h1, if_neg h1]
    have hinc : s.count.inc = (wrapI32 (c + 1), (⟨wrapI32 (c + 1)⟩ : Count)) := by
      rw [Count.inc, hc, wrapI32_wrap]
    by_cases h2 : String.mk (rustTrim line.data) = "def"
    · rw [if_pos h2, if_pos h2, if_pos h2, if_pos h2, hinc]
      simp only []
      rw [reparse_definition]
      simp only [Bool.false_eq_true, if_false, reduceIte]
      rcases ih ⟨⟨wrapI32 (c + 1)⟩,
          s.commands ++ [definition_envelope (wrapI32 (c + 1)) uri 9 4],
          s.sent ++ [definition_request (wrapI32 (c + 1)) uri 9 4],
          s.ids ++ [wrapI32 (c + 1)]⟩ (c + 1) rfl
        with ⟨st, hrun, hcmd, hids, hcnt⟩
      refine ⟨st, hrun, ?_, ?_, ?_⟩
      · rw [hcmd]; simp
      · rw [hids]; simp
      · rw [hcnt]; congr 1; omega
    rw [if_neg h2, if_neg h2, if_neg h2, if_neg h2]
    by_cases h3 : String.mk (rustTrim line.data) = "sym"
    · rw [if_pos h3, if_pos h3, if_pos h3, if_pos h3, hinc]
      simp only []
      rw [reparse_document_symbol]
      simp only [Bool.false_eq_true, if_false, reduceIte]
      rcases ih ⟨⟨wrapI32 (c + 1)⟩,
          s.commands ++ [document_symbol_envelope (wrapI32 (c + 1)) uri],
          s.sent ++ [document_symbol_request (wrapI32 (c + 1)) uri],
          s.ids ++ [wrapI32 (c + 1)]⟩ (c + 1) rfl
        with ⟨st, hrun, hcmd, hids, hcnt⟩
      refine ⟨st, hrun, ?_, ?_, ?_⟩
      · rw [hcmd]; simp
      · rw [hids]; simp
      · rw [hcnt]; congr 1; omega
    rw [if_neg h3, if_neg h3, if_neg h3, if_neg h3]
    by_cases h4 : String.mk (rustTrim line.data) = "quit"
    · rw [if_pos h4, if_pos h4, if_pos h4, if_pos h4]
      exact ⟨_, rfl, rfl, by simp, by simpa using hc⟩
    rw [if_neg h4, if_neg h4, if_neg h4, if_neg h4]
    simp only []
    rcases ih ⟨s.count, s.commands ++ [Json.str "unknown"], s.sent, s.ids⟩ c hc
      with ⟨st, hrun, hcmd, hids, hcnt⟩
    exact ⟨st, hrun, by rw [hcmd]; simp, by rw [hids], hcnt⟩

/-- `handle_stdin` never panics; its table and identifier trace follow the
closed forms, with `initialize` consuming identifier 1. -/
theorem handle_stdin_spec (uri src : String) (lines : List String) :
    ∃ st, handle_stdin uri src lines = some st ∧
      st.commands = commandsSpec uri 1 lines ∧
      st.ids = 1 :: idsSpec 1 lines ∧
      st.count.val = wrapI32 (1 + idReqCount lines) := by
  rw [handle_stdin]
  simp only [Count.inc]
  rcases runLoop_spec uri lines
      { count := ⟨wrapI32 ((0 : Int) + 1)⟩, commands := [],
        sent := [initialize_request (wrapI32 ((0 : Int) + 1)),
          did_open_request uri src],
        ids := [wrapI32 ((0 : Int) + 1)] } 1 (by norm_num)
    with ⟨st, hrun, hcmd, hids, hcnt⟩
  rw [hrun]
  refine ⟨_, rfl, by simpa using hcmd, ?_, by simpa using hcnt⟩
  simp only []
  rw [hids]
  norm_num [wrapI32]

/-! ## Claim C4: identifier sequence -/

/-- Consecutive integers, the claim's idealised identifier sequence. -/
def consecInts (start : Int) : Nat → List Int
  | 0 => []
  | k + 1 => start :: consecInts (start + 1) k

theorem consecInts_mem : ∀ (k : Nat) (start x : Int), x ∈ consecInts start k →
    start ≤ x ∧ x < start + k := by
  intro k
  induction k with
  | zero => intro start x hx; simp [consecInts] at hx
  | succ k ih =>
    intro start x hx
    rw [consecInts] at hx
    rcases List.mem_cons.mp hx with rfl | hx
    · constructor
      · exact le_refl x
      · push_cast; omega
    · rcases ih (start + 1) x hx with ⟨h1, h2⟩
      constructor
      · omega
      · push_cast at h2 ⊢; omega

theorem consecInts_pairwise : ∀ (k : Nat) (start : Int),
    List.Pairwise (· < ·) (consecInts start k) := by
  intro k
  induction k with
  | zero => intro start; simp [consecInts]
  | succ k ih =>
    intro start
    rw [consecInts]
    refine List.Pairwise.cons ?_ (ih (start + 1))
    intro x hx
    rcases consecInts_mem k (start + 1) x hx with ⟨h1, _⟩
    omega

theorem consecInts_length : ∀ (k : Nat) (start : Int),
    (consecInts start k).length = k := by
  intro k
  induction k with
  | zero => intro start; rfl
  | succ k ih => intro start; rw [consecInts, List.length_cons, ih]

theorem wrapI32_eq_self (x : Int) (h1 : -2147483648 ≤ x) (h2 : x ≤ 2147483647) :
    wrapI32 x = x := by
  unfold wrapI32; omega

/-- While the counter stays within the `i32` range, the issued identifiers
are literally consecutive integers. -/
theorem idsSpec_nowrap : ∀ (lines : List String) (c : Int), 0 ≤ c →
    c + idReqCount lines ≤ 2147483647 →
    idsSpec c lines = consecInts (c + 1) (idReqCount lines) := by
  intro lines
  induction lines with
  | nil => intro c _ _; rfl
  | cons line rest ih =>
    intro c hc hbound
    rw [idReqCount] at hbound ⊢
    rw [idsSpec]
    by_cases hempty : line = ""
    · rw [if_pos hempty, if_pos hempty]; rfl
    rw [if_neg hempty] at hbound
    rw [if_neg hempty, if_neg hempty]
    by_cases h1 : String.mk (rustTrim line.data) = "help"
    · rw [if_pos h1] at hbound
      rw [if_pos h1, if_pos h1]
      exact ih c hc hbound
    rw [if_neg h1] at hbound
    rw [if_neg h1, if_neg h1]
    by_cases h2 : String.mk (rustTrim line.data) = "def"
    · rw [if_pos h2] at hbound
      rw [if_pos h2, if_pos h2]
      rw [Nat.add_comm 1, consecInts]
      rw [wrapI32_eq_self (c + 1) (by omega) (by push_cast at hbound; omega)]
      rw [ih (c + 1) (by omega) (by push_cast at hbound ⊢; omega)]
    rw [if_neg h2] at hbound
    rw [if_neg h2, if_neg h2]
    by_cases h3 : String.mk (rustTrim line.data) = "sym"
    · rw [if_pos h3] at hbound
      rw [if_pos h3, if_pos h3]
      rw [Nat.add_comm 1, consecInts]
      rw [wrapI32_eq_self (c + 1) (by omega) (by push_cast at hbound; omega)]
      rw [ih (c + 1) (by omega) (by push_cast at hbound ⊢; omega)]
    rw [if_neg h3] at hbound
    rw [if_neg h3, if_neg h3]
    by_cases h4 : String.mk (rustTrim line.data) = "quit"
    · rw [if_pos h4, if_pos h4]; rfl
    rw [if_neg h4] at hbound
    rw [if_neg h4, if_neg h4]
    exact ih c hc hbound

/-- C4 (amended): as long as the session issues at most `2^31 - 1`
identifier-bearing requests (so the `i32` counter does not overflow), all
assigned identifiers are exactly the consecutive integers starting at 1 —
pairwise distinct, strictly increasing in issuance order, one per
identifier-bearing request. -/
theorem C4_amended_identifier_sequence (uri src : String) (lines : List String)
    (h : 1 + idReqCount lines ≤ 2147483647) :
    ∃ st, handle_stdin uri src lines = some st ∧
      st.ids = consecInts 1 (1 + idReqCount lines) ∧
      st.ids.length = 1 + idReqCount lines ∧
      List.Pairwise (· < ·) st.ids ∧
      st.ids.head? = some 1 := by
  rcases handle_stdin_spec uri src lines with ⟨st, hrun, _, hids, _⟩
  have hspec := idsSpec_nowrap lines 1 (by norm_num) (by omega)
  have hform : st.ids = consecInts 1 (1 + idReqCount lines) := by
    rw [hids, hspec, Nat.add_comm 1, consecInts]
  refine ⟨st, hrun, hform, ?_, ?_, ?_⟩
  · rw [hform, consecInts_length]
  · rw [hform]; exact consecInts_pairwise _ _
  · rw [hform, Nat.add_comm 1, consecInts]; rfl

theorem C4_amended_identifier_sequence_witness :
    ∃ st, handle_stdin "u" "s" ["def\n"] = some st ∧
      st.ids = consecInts 1 (1 + idReqCount ["def\n"]) ∧
      st.ids.length = 1 + idReqCount ["def\n"] ∧
      List.Pairwise (· < ·) st.ids ∧
      st.ids.head? = some 1 :=
  C4_amended_identifier_sequence "u" "s" ["def\n"] (by decide)

/-- The identifiers issued over a run of `sym` commands: successive wrapped
increments. -/
def wrapRange (c : Int) : Nat → List Int
  | 0 => []
  | k + 1 => wrapI32 (c + 1) :: wrapRange (c + 1) k

theorem idsSpec_replicate_sym : ∀ (n : Nat) (c : Int),
    idsSpec c (List.replicate n "sym\n") = wrapRange c n := by
  intro n
  induction n with
  | zero => intro c; rfl
  | succ n ih =>
    intro c
    rw [List.replicate_succ, idsSpec, wrapRange]
    rw [if_neg (by decide), if_neg (by decide), if_neg (by decide),
      if_pos (by decide)]
    rw [ih]

theorem wrapRange_succ_snoc : ∀ (k : Nat) (c : Int),
    wrapRange c (k + 1) = wrapRange c k ++ [wrapI32 (c + k + 1)] := by
  intro k
  induction k with
  | zero =>
    intro c
    show [wrapI32 (c + 1)] = [] ++ [wrapI32 (c + (0 : Nat) + 1)]
    simp
  | succ k ih =>
    intro c
    rw [show wrapRange c (k + 1 + 1) = wrapI32 (c + 1) :: wrapRange (c + 1) (k + 1)
      from rfl]
    rw [ih (c + 1)]
    rw [show wrapRange c (k + 1) = wrapI32 (c + 1) :: wrapRange (c + 1) k from rfl]
    rw [List.cons_append]
    congr 2
    push_cast
    ring_nf

theorem wrapRange_mem : ∀ (k : Nat) (c : Int) (j : Nat), 1 ≤ j → j ≤ k →
    wrapI32 (c + j) ∈ wrapRange c k := by
  intro k
  induction k with
  | zero => intro c j h1 h2; omega
  | succ k ih =>
    intro c j h1 h2
    rw [wrapRange]
    by_cases hj : j = 1
    · subst hj
      rw [show c + ((1 : Nat) : Int) = c + 1 from by norm_num]
      exact List.mem_cons_self _ _
    · have harg : c + 1 + ((j - 1 : Nat) : Int) = c + j := by omega
      have := ih (c + 1) (j - 1) (by omega) (by omega)
      rw [harg] at this
      exact List.mem_cons_of_mem _ this

/-- C4 (counterexample): with `2^31 - 1` identifier-bearing commands after
`initialize`, the `i32` counter overflows and wraps, so the issued
identifier sequence is not strictly increasing — the claim as stated
("across any sequence of N identifier-bearing requests") fails. -/
theorem C4_counterexample :
    ∃ st, handle_stdin "u" "s" (List.replicate 2147483647 "sym\n") = some st ∧
      ¬ List.Pairwise (· < ·) st.ids := by
  rcases handle_stdin_spec "u" "s" (List.replicate 2147483647 "sym\n")
    with ⟨st, hrun, _, hids, _⟩
  refine ⟨st, hrun, ?_⟩
  rw [hids, idsSpec_replicate_sym]
  rw [show (2147483647 : Nat) = 2147483646 + 1 from rfl, wrapRange_succ_snoc]
  intro hpair
  have hpair2 := (List.pairwise_cons.mp hpair).2
  rcases List.pairwise_append.mp hpair2 with ⟨_, _, hrel⟩
  have hx : wrapI32 (1 + ((2147483646 : Nat) : Int)) ∈ wrapRange 1 2147483646 :=
    wrapRange_mem 2147483646 1 2147483646 (by norm_num) (by norm_num)
  have hlt := hrel _ hx (wrapI32 (1 + ((2147483646 : Nat) : Int) + 1))
    (List.mem_singleton.mpr rfl)
  have hv1 : wrapI32 (1 + ((2147483646 : Nat) : Int)) = 2147483647 := by
    norm_num [wrapI32]
  have hv2 : wrapI32 (1 + ((2147483646 : Nat) : Int) + 1) = -2147483648 := by
    norm_num [wrapI32]
  rw [hv1, hv2] at hlt
  omega

/-! ## Claim C1: correlation -/

theorem str_get_id (x : String) : (Json.str x).get "id" = none := rfl

theorem definition_envelope_get_id (n : Int) (uri : String) (l ch : Nat) :
    (definition_envelope n uri l ch).get "id" = some (Json.num n) := rfl

theorem document_symbol_envelope_get_id (n : Int) (uri : String) :
    (document_symbol_envelope n uri).get "id" = some (Json.num n) := rfl

/-- Every envelope in the table carries an identifier of the form
`wrapI32 (c + j)` for the `j`-th identifier issued after the table base. -/
theorem commandsSpec_entry_id (uri : String) : ∀ (lines : List String) (c : Int)
    (e : Json), e ∈ commandsSpec uri c lines → ∀ i, e.get "id" = some i →
    ∃ j : Nat, 1 ≤ j ∧ j ≤ idReqCount lines ∧ i = Json.num (wrapI32 (c + j)) := by
  intro lines
  induction lines with
  | nil => intro c e he; simp [commandsSpec] at he
  | cons line rest ih =>
    intro c e he i hid
    rw [commandsSpec] at he
    rw [idReqCount]
    by_cases hempty : line = ""
    · rw [if_pos hempty] at he; simp at he
    rw [if_neg hempty] at he
    rw [if_neg hempty]
    by_cases h1 : String.mk (rustTrim line.data) = "help"
    · rw [if_pos h1] at he
      rw [if_pos h1]
      rcases List.mem_cons.mp he with rfl | he2
      · rw [str_get_id] at hid; exact Option.noConfusion hid
      · exact ih c e he2 i hid
    rw [if_neg h1] at he
    rw [if_neg h1]
    by_cases h2 : String.mk (rustTrim line.data) = "def"
    · rw [if_pos h2] at he
      rw [if_pos h2]
      rcases List.mem_cons.mp he with rfl | he2
      · rw [definition_envelope_get_id] at hid
        refine ⟨1, le_rfl, by omega, ?_⟩
        rw [← Option.some.inj hid]
        norm_num
      · rcases ih (c + 1) e he2 i hid with ⟨j, hj1, hj2, hj3⟩
        refine ⟨j + 1, by omega, by omega, ?_⟩
        rw [hj3]
        congr 2
        push_cast
        ring
    rw [if_neg h2] at he
    rw [if_neg h2]
    by_cases h3 : String.mk (rustTrim line.data) = "sym"
    · rw [if_pos h3] at he
      rw [if_pos h3]
      rcases List.mem_cons.mp he with rfl | he2
      · rw [document_symbol_envelope_get_id] at hid
        refine ⟨1, le_rfl, by omega, ?_⟩
        rw [← Option.some.inj hid]
        norm_num
      · rcases ih (c + 1) e he2 i hid with ⟨j, hj1, hj2, hj3⟩
        refine ⟨j + 1, by omega, by omega, ?_⟩
        rw [hj3]
        congr 2
        push_cast
        ring
    rw [if_neg h3] at he
    rw [if_neg h3]
    by_cases h4 : String.mk (rustTrim line.data) = "quit"
    · rw [if_pos h4] at he
      rw [List.mem_singleton] at he
      subst he
      rw [str_get_id] at hid
      exact Option.noConfusion hid
    rw [if_neg h4] at he
    rw [if_neg h4]
    rcases List.mem_cons.mp he with rfl | he2
    · rw [str_get_id] at hid; exact Option.noConfusion hid
    · exact ih c e he2 i hid

/-- A table entry deeper in the list can never reuse the identifier that the
head envelope just consumed, as long as fewer than `2^32` identifiers follow
(the counter's period). -/
theorem head_tail_id_conflict (uri : String) (rest : List String) (c : Int)
    (hbound : idReqCount rest ≤ 4294967295)
    (e2 : Json) (he2 : e2 ∈ commandsSpec uri (c + 1) rest) (i : Json)
    (hid2 : e2.get "id" = some i) (hid1 : i = Json.num (wrapI32 (c + 1))) :
    False := by
  rcases commandsSpec_entry_id uri rest (c + 1) e2 he2 i hid2 with ⟨j, hj1, hj2, hj3⟩
  rw [hid1] at hj3
  have hnum : wrapI32 (c + 1) = wrapI32 (c + 1 + j) := Json.num.inj hj3
  unfold wrapI32 at hnum
  omega

/-- Distinct table positions that both carry an identifier never carry the
same identifier value with different envelopes (within one counter period). -/
theorem commandsSpec_entry_unique (uri : String) : ∀ (lines : List String) (c : Int),
    idReqCount lines ≤ 4294967296 →
    ∀ e1, e1 ∈ commandsSpec uri c lines → ∀ e2, e2 ∈ commandsSpec uri c lines →
    ∀ i, e1.get "id" = some i → e2.get "id" = some i → e1 = e2 := by
  intro lines
  induction lines with
  | nil => intro c _ e1 he1; simp [commandsSpec] at he1
  | cons line rest ih =>
    intro c hbound e1 he1 e2 he2 i hid1 hid2
    rw [commandsSpec] at he1 he2
    rw [idReqCount] at hbound
    by_cases hempty : line = ""
    · rw [if_pos hempty] at he1; simp at he1
    rw [if_neg hempty] at he1 he2 hbound
    by_cases h1 : String.mk (rustTrim line.data) = "help"
    · rw [if_pos h1] at he1 he2 hbound
      rcases List.mem_cons.mp he1 with rfl | he1b
      · rw [str_get_id] at hid1; exact Option.noConfusion hid1
      rcases List.mem_cons.mp he2 with rfl | he2b
      · rw [str_get_id] at hid2; exact Option.noConfusion hid2
      exact ih c hbound e1 he1b e2 he2b i hid1 hid2
    rw [if_neg h1] at he1 he2 hbound
    by_cases h2 : String.mk (rustTrim line.data) = "def"
    · rw [if_pos h2] at he1 he2 hbound
      rcases List.mem_cons.mp he1 with rfl | he1b
      · rcases List.mem_cons.mp he2 with rfl | he2b
        · rfl
        · rw [definition_envelope_get_id] at hid1
          exact (head_tail_id_conflict uri rest c (by omega)
            e2 he2b i hid2 (Option.some.inj hid1).symm).elim
      · rcases List.mem_cons.mp he2 with rfl | he2b
        · rw [definition_envelope_get_id] at hid2
          exact (head_tail_id_conflict uri rest c (by omega)
            e1 he1b i hid1 (Option.some.inj hid2).symm).elim
        · exact ih (c + 1) (by omega) e1 he1b e2 he2b i hid1 hid2
    rw [if_neg h2] at he1 he2 hbound
    by_cases h3 : String.mk (rustTrim line.data) = "sym"
    · rw [if_pos h3] at he1 he2 hbound
      rcases List.mem_cons.mp he1 with rfl | he1b
      · rcases List.mem_cons.mp he2 with rfl | he2b
        · rfl
        · rw [document_symbol_envelope_get_id] at hid1
          exact (head_tail_id_conflict uri rest c (by omega)
            e2 he2b i hid2 (Option.some.inj hid1).symm).elim
      · rcases List.mem_cons.mp he2 with rfl | he2b
        · rw [document_symbol_envelope_get_id] at hid2
          exact (head_tail_id_conflict uri rest c (by omega)
            e1 he1b i hid1 (Option.some.inj hid2).symm).elim
        · exact ih (c + 1) (by omega) e1 he1b e2 he2b i hid1 hid2
    rw [if_neg h3] at he1 he2 hbound
    by_cases h4 : String.mk (rustTrim line.data) = "quit"
    · rw [if_pos h4] at he1
      rw [List.mem_singleton] at he1
      subst he1
      rw [str_get_id] at hid1
      exact Option.noConfusion hid1
    rw [if_neg h4] at he1 he2 hbound
    rcases List.mem_cons.mp he1 with rfl | he1b
    · rw [str_get_id] at hid1; exact Option.noConfusion hid1
    rcases List.mem_cons.mp he2 with rfl | he2b
    · rw [str_get_id] at hid2; exact Option.noConfusion hid2
    exact ih c hbound e1 he1b e2 he2b i hid1 hid2

/-- `find?` returns the (unique) matching entry. -/
theorem find_unique_id : ∀ (L : List Json) (e i : Json), e ∈ L →
    e.get "id" = some i →
    (∀ e2 ∈ L, e2.get "id" = some i → e2 = e) →
    L.find? (fun c => c.get "id" == some i) = some e := by
  intro L
  induction L with
  | nil => intro e i he; simp at he
  | cons h t ih =>
    intro e i he hid huniq
    by_cases hh : h.get "id" = some i
    · have heq : h = e := huniq h (List.mem_cons_self h t) hh
      subst heq
      exact List.find?_cons_of_pos _ (by simp [hh])
    · rw [List.find?_cons_of_neg _ (by simp [hh])]
      have he2 : e ∈ t := by
        rcases List.mem_cons.mp he with rfl | hmem
        · exact absurd hid hh
        · exact hmem
      exact ih e i he2 hid
        (fun e2 hmem hid2 => huniq e2 (List.mem_cons_of_mem _ hmem) hid2)

/-- C1 (amended): provided the session issues at most `2^32` identifier-
bearing requests (one period of the wrapping `i32` counter), every envelope
registered in the shared commands table is resolved back exactly by a
response bearing its identifier, however many other requests and responses
are interleaved. -/
theorem C1_amended_correlation (uri src : String) (lines : List String)
    (hN : idReqCount lines ≤ 4294967296) :
    ∃ st, handle_stdin uri src lines = some st ∧
      ∀ e ∈ st.commands, ∀ i, e.get "id" = some i →
        resolve st.commands i = some e := by
  rcases handle_stdin_spec uri src lines with ⟨st, hrun, hcmd, _, _⟩
  refine ⟨st, hrun, ?_⟩
  intro e he i hid
  rw [hcmd] at he ⊢
  rw [resolve]
  exact find_unique_id _ e i he hid
    (fun e2 hmem hid2 =>
      commandsSpec_entry_unique uri lines 1 hN e2 hmem e he i hid2 hid)

theorem C1_amended_correlation_witness :
    ∃ st, handle_stdin "u" "s" ["def\n", "def\n"] = some st ∧
      ∀ e ∈ st.commands, ∀ i, e.get "id" = some i →
        resolve st.commands i = some e :=
  C1_amended_correlation "u" "s" ["def\n", "def\n"] (by decide)

/-- The table produced by a run of `sym` commands. -/
def symRange (uri : String) (c : Int) : Nat → List Json
  | 0 => []
  | k + 1 => document_symbol_envelope (wrapI32 (c + 1)) uri :: symRange uri (c + 1) k

theorem commandsSpec_replicate_sym : ∀ (n : Nat) (uri : String) (c : Int),
    commandsSpec uri c (List.replicate n "sym\n") = symRange uri c n := by
  intro n
  induction n with
  | zero => intro uri c; rfl
  | succ n ih =>
    intro uri c
    rw [List.replicate_succ, commandsSpec, symRange]
    rw [if_neg (by decide), if_neg (by decide), if_neg (by decide),
      if_pos (by decide)]
    rw [ih]

theorem symRange_mem : ∀ (k : Nat) (uri : String) (c : Int) (j : Nat),
    1 ≤ j → j ≤ k →
    document_symbol_envelope (wrapI32 (c + j)) uri ∈ symRange uri c k := by
  intro k
  induction k with
  | zero => intro uri c j h1 h2; omega
  | succ k ih =>
    intro uri c j h1 h2
    rw [symRange]
    by_cases hj : j = 1
    · subst hj
      rw [show c + ((1 : Nat) : Int) = c + 1 from by norm_num]
      exact List.mem_cons_self _ _
    · have harg : c + 1 + ((j - 1 : Nat) : Int) = c + j := by omega
      have := ih uri (c + 1) (j - 1) (by omega) (by omega)
      rw [harg] at this
      exact List.mem_cons_of_mem _ this

/-- C1 (counterexample): after a full period of the `i32` counter
(`2^32` further `sym` requests following one `def`), a later `sym` request
is registered under identifier 2 again, but the lookup for id 2 resolves to
the first `def` request's envelope — a different request — so the claim's
"regardless of how many other requests are interleaved" fails. -/
theorem C1_counterexample :
    ∃ st, handle_stdin "u" "s" ("def\n" :: List.replicate 4294967296 "sym\n")
        = some st ∧
      document_symbol_envelope 2 "u" ∈ st.commands ∧
      resolve st.commands (Json.num 2) = some (definition_envelope 2 "u" 9 4) ∧
      definition_envelope 2 "u" 9 4 ≠ document_symbol_envelope 2 "u" := by
  rcases handle_stdin_spec "u" "s" ("def\n" :: List.replicate 4294967296 "sym\n")
    with ⟨st, hrun, hcmd, _, _⟩
  have htable : st.commands
      = definition_envelope (wrapI32 (1 + 1)) "u" 9 4 ::
        symRange "u" (1 + 1) 4294967296 := by
    rw [hcmd, commandsSpec]
    rw [if_neg (by decide), if_neg (by decide), if_pos (by decide)]
    rw [commandsSpec_replicate_sym]
  have hw2 : wrapI32 ((1 : Int) + 1) = 2 := by norm_num [wrapI32]
  refine ⟨st, hrun, ?_, ?_, by decide⟩
  · rw [htable]
    refine List.mem_cons_of_mem _ ?_
    have hmem := symRange_mem 4294967296 "u" (1 + 1) 4294967296
      (by norm_num) (by norm_num)
    have hval : (1 : Int) + 1 + ((4294967296 : Nat) : Int) = 4294967298 := by
      norm_num
    rw [hval] at hmem
    rw [show wrapI32 4294967298 = 2 from by norm_num [wrapI32]] at hmem
    exact hmem
  · rw [htable, hw2, resolve]
    rw [List.find?_cons_of_pos _ (by decide)]

/-! ## Claim C6: empty console line vs end of input -/

/-- C6 (counterexample): a typed empty console line (`readline` returns
`"\n"`) is *not* treated as quit — it is reported as an unknown command and
the loop keeps going: a subsequent `def` is still processed and registered. -/
theorem C6_counterexample :
    (handle_stdin "u" "s" ["\n"]).map St.commands = some [Json.str "unknown"] ∧
    (handle_stdin "u" "s" ["\n", "def\n"]).map St.commands
      = some [Json.str "unknown", definition_envelope 2 "u" 9 4] := by decide

/-- C6 (amended): end of console input — `readline` returning an empty
buffer, which happens at EOF, not for a typed empty line — is treated as
quit: even immediately at startup it ends the loop and the session closes
cleanly with `didClose` followed by `exit`.  A typed empty line (a bare
newline) is instead reported as an unknown command and the loop continues. -/
theorem C6_amended_eof_quits (uri src : String) (s : St) :
    (∃ st, handle_stdin uri src [] = some st ∧
      st.commands = [] ∧
      st.sent = [initialize_request 1, did_open_request uri src,
        did_close_request uri, exit_request]) ∧
    stepCmd uri s "\n"
      = some ({ s with commands := s.commands ++ [Json.str "unknown"] }, false) := by
  constructor
  · exact ⟨_, rfl, rfl, rfl⟩
  · rfl

/-! ## Claim C5: framing errors -/

theorem consume_bogus (rest : List Char) :
    consume_json_rpc_message ("BOGUS\r\n".data ++ rest)
      = .out none rest
          ["Unexpected line: \x1b[31m" ++ "BOGUS\r\n" ++ "\x1b[0m"] [] := by
  rw [consume_json_rpc_message]
  rw [show ("BOGUS\r\n".data ++ rest : List Char)
    = "BOGUS\r".data ++ '\n' :: rest from rfl]
  rw [readLine_append _ (by decide) _]
  simp only []
  rw [if_neg (by decide : ¬("BOGUS\r".data ++ ['\n'] : List Char) = [])]
  rw [show (("Content-Length: ".data).isPrefixOf ("BOGUS\r".data ++ ['\n']))
    = false from by decide]
  simp only [Bool.false_eq_true, if_false, reduceIte]
  rfl

theorem consume_badlen (rest : List Char) :
    consume_json_rpc_message ("Content-Length: XYZ\r\n\r\n".data ++ rest)
      = .panic "Failed to parse Content-Length" := by
  rw [consume_json_rpc_message]
  rw [show ("Content-Length: XYZ\r\n\r\n".data ++ rest : List Char)
    = "Content-Length: XYZ\r".data ++ '\n' :: ('\r' :: '\n' :: rest) from rfl]
  rw [readLine_append _ (by decide) _]
  simp only []
  rw [if_neg (by decide : ¬("Content-Length: XYZ\r".data ++ ['\n'] : List Char) = [])]
  rw [show (("Content-Length: ".data).isPrefixOf
      ("Content-Length: XYZ\r".data ++ ['\n'])) = true from by decide]
  simp only [if_true, reduceIte]
  rw [show parseUsize (rustTrim (trim_start_matches "Content-Length: ".data
      ("Content-Length: XYZ\r".data ++ ['\n']))) = none from by decide]

/-- C5 (amended): framing errors are not recoverable.  A line that does not
begin with the `Content-Length` header token surfaces exactly one diagnostic
and then `handle_stdout` leaves its loop (a following well-formed frame is
never decoded); a length field that fails to parse as a decimal, and a
stream that ends before the declared number of body bytes is available, both
abort via an `expect` panic.  Well-formed frames before the bad input are
still decoded. -/
theorem C5_amended_framing_errors_fatal (v1 v2 : Json) (f : Nat) :
    (∀ rest, consume_json_rpc_message ("BOGUS\r\n".data ++ rest)
      = .out none rest
          ["Unexpected line: \x1b[31m" ++ "BOGUS\r\n" ++ "\x1b[0m"] []) ∧
    handle_stdout [] (f + 1) ("BOGUS\r\n".data ++ generate_rpc_request v2)
      = .stopped [] ["Unexpected line: \x1b[31m" ++ "BOGUS\r\n" ++ "\x1b[0m",
          "No JSON message received"] "No JSON message received" ∧
    (∀ rest, consume_json_rpc_message ("Content-Length: XYZ\r\n\r\n".data ++ rest)
      = .panic "Failed to parse Content-Length") ∧
    consume_json_rpc_message "Content-Length: 10\r\n\r\n\x7b\x7d".data
      = .panic "Failed to read JSON message" ∧
    handle_stdout [] (f + 2) (generate_rpc_request v1
        ++ ("Content-Length: XYZ\r\n\r\n".data ++ generate_rpc_request v2))
      = .panicked [v1] [] "Failed to parse Content-Length" := by
  refine ⟨consume_bogus, ?_, consume_badlen, by decide, ?_⟩
  · rw [handle_stdout, consume_bogus]
    rfl
  · rw [handle_stdout, consume_generate]
    simp only []
    rw [display_unmatched_ok v1 [] (fun i _ => rfl)]
    simp only []
    rw [handle_stdout, consume_badlen]
    rfl

/-- C5 (counterexample): on a stream holding a well-formed frame, a frame
with a corrupted length field, then another well-formed frame, the pump
decodes the first frame and then panics while parsing the corrupted length;
the third frame is never decoded and no recovery happens — contradicting the
claim that both good frames are decoded with a single surfaced diagnostic. -/
theorem C5_counterexample :
    handle_stdout [] 3 (generate_rpc_request Json.null
        ++ ("Content-Length: XYZ\r\n\r\n".data
          ++ generate_rpc_request (Json.bool true)))
      = .panicked [Json.null] [] "Failed to parse Content-Length" ∧
    Json.bool true ∉ ([Json.null] : List Json) := by decide
